import Mathlib

/-!
# gexe: daemon lifecycle, release protocol and executable resolver

A shallow embedding of `application/application.go` and `application/daemon.go`.

* Paths are absolute, cleaned paths, kept as their list of components.
* The file system is a tree of files and directories; the operating-system calls
  the program makes (`os.Stat`, `ioutil.ReadDir`, `os.Mkdir`, `os.Rename`,
  `time.Now`, `time.Sleep`) are functions on a `World`.
* A `Daemon` value holds the fields of the Go struct, the locals of `loop()`, the
  point `loop()` has reached, and the goroutines blocked on its channels.
-/

namespace Gexe

/-! ## Paths (`path/filepath`) -/

/-- An absolute cleaned path, as its components; `[]` is the root. -/
abbrev Path := List String

/-- Model of `filepath.Join(dir, elem)` for a single separator-free element. -/
def filepathJoin (dir : Path) (elem : String) : Path := dir ++ [elem]

/-- Model of `filepath.Base`: the last component, `/` for the root. -/
def filepathBase (p : Path) : String := p.getLast?.getD "/"

/-- Model of `filepath.Dir`: all but the last component. -/
def filepathDir (p : Path) : Path := p.dropLast

/-! ## File system -/

/-- Error numbers returned by the modelled system calls. -/
inductive Errno where
  | ENOENT | ENOTDIR | EEXIST | EINVAL | EBUSY | EACCES | EPERM
deriving DecidableEq, Repr, Inhabited

/-- A file-system object: a regular file or a directory with named entries. -/
inductive Node where
  | file (mode : Nat) (data : List Nat)
  | dir (mode : Nat) (entries : List (String × Node))
deriving Repr, Inhabited

/-- Whether the object is a directory. -/
def Node.isDir : Node → Bool
  | .file _ _ => false
  | .dir _ _ => true

/-- Mode bits of the object. -/
def Node.mode : Node → Nat
  | .file m _ => m
  | .dir m _ => m

/-- First entry of a directory with the given name. -/
def lookupEntry (c : String) : List (String × Node) → Option Node
  | [] => none
  | (k, n) :: es => if k = c then some n else lookupEntry c es

/-- Remove every entry with the given name. -/
def eraseEntry (c : String) : List (String × Node) → List (String × Node)
  | [] => []
  | (k, n) :: es => if k = c then eraseEntry c es else (k, n) :: eraseEntry c es

/-- Bind the name to the object, replacing an earlier binding. -/
def setEntry (c : String) (x : Node) (es : List (String × Node)) : List (String × Node) :=
  eraseEntry c es ++ [(c, x)]

/-- Resolve a path from the root. -/
def Node.walk : Node → Path → Except Errno Node
  | n, [] => .ok n
  | .file _ _, _ :: _ => .error .ENOTDIR
  | .dir _ es, c :: cs =>
    match lookupEntry c es with
    | none => .error .ENOENT
    | some n => n.walk cs

/-- Detach the object at a path; the tree is unchanged when there is none. -/
def Node.remove : Node → Path → Node
  | n, [] => n
  | .file m d, _ :: _ => .file m d
  | .dir m es, [c] => .dir m (eraseEntry c es)
  | .dir m es, c :: c2 :: cs =>
    match lookupEntry c es with
    | none => .dir m es
    | some n => .dir m (setEntry c (n.remove (c2 :: cs)) es)

/-- Attach an object at a path whose parent is a directory; otherwise no change. -/
def Node.place : Node → Path → Node → Node
  | n, [], _ => n
  | .file m d, _ :: _, _ => .file m d
  | .dir m es, [c], x => .dir m (setEntry c x es)
  | .dir m es, c :: c2 :: cs, x =>
    match lookupEntry c es with
    | none => .dir m es
    | some n => .dir m (setEntry c (n.place (c2 :: cs) x) es)

/-- Whether the second path is the first or lies below it. -/
def under : Path → Path → Bool
  | [], _ => true
  | _ :: _, [] => false
  | a :: p, b :: q => a = b && under p q

/-- Model of `mkdir(2)`: creates an empty directory under an existing directory. -/
def mkdirFs (fs : Node) (p : Path) (perm : Nat) : Except Errno Node :=
  match p with
  | [] => .error .EEXIST
  | _ :: _ =>
    match fs.walk p with
    | .ok _ => .error .EEXIST
    | .error _ =>
      match fs.walk p.dropLast with
      | .error e => .error e
      | .ok (.file _ _) => .error .ENOTDIR
      | .ok (.dir _ _) => .ok (fs.place p (.dir perm []))

/-- Model of `os.Rename`: the source must exist; the destination must lie outside
the source, under an existing directory, and must not be a directory; a regular
file at the destination is replaced by a regular file only. -/
def renameFs (fs : Node) (src dst : Path) : Except Errno Node :=
  match fs.walk src with
  | .error e => .error e
  | .ok s =>
    if src = [] ∨ dst = [] then .error .EBUSY
    else if src = dst then (if s.isDir then .error .EEXIST else .ok fs)
    else if under src dst then .error .EINVAL
    else
      match fs.walk dst with
      | .ok (.dir _ _) => .error .EEXIST
      | .ok (.file _ _) =>
        if s.isDir then .error .ENOTDIR else .ok ((fs.remove src).place dst s)
      | .error _ =>
        match (fs.remove src).walk dst.dropLast with
        | .error e => .error e
        | .ok (.file _ _) => .error .ENOTDIR
        | .ok (.dir _ _) => .ok ((fs.remove src).place dst s)

/-- A system call that changes the file system or the clock, with its result. -/
inductive Syscall where
  | mkdir (p : Path) (err : Option Errno)
  | rename (src dst : Path) (err : Option Errno)
  | sleep (seconds : Nat)
deriving DecidableEq, Repr

/-- The environment of the program: platform, file system, wall clock, the
transient failures the operating system is going to answer the coming
`os.Rename` calls with (`none`: no transient failure), and the calls made. -/
structure World where
  goos : String
  fs : Node
  now : Nat
  faults : List (Option Errno)
  trace : List Syscall

/-- Model of `os.Stat`. -/
def osStat (w : World) (p : Path) : Except Errno Node := w.fs.walk p

/-- Model of `os.IsNotExist(err)` on the result of a call. -/
def isNotExist {α : Type} : Except Errno α → Bool
  | .error .ENOENT => true
  | _ => false

/-- Model of `os.Mkdir`. -/
def osMkdir (p : Path) (perm : Nat) (w : World) : Option Errno × World :=
  match mkdirFs w.fs p perm with
  | .error e => (some e, { w with trace := w.trace ++ [.mkdir p (some e)] })
  | .ok fs1 => (none, { w with fs := fs1, trace := w.trace ++ [.mkdir p none] })

/-- Model of `os.Rename` in a world: a scripted transient failure wins, otherwise
the file system decides. -/
def osRename (src dst : Path) (w : World) : Option Errno × World :=
  match w.faults.head? with
  | some (some e) =>
    (some e, { w with faults := w.faults.tail, trace := w.trace ++ [.rename src dst (some e)] })
  | _ =>
    match renameFs w.fs src dst with
    | .error e =>
      (some e, { w with faults := w.faults.tail,
                        trace := w.trace ++ [.rename src dst (some e)] })
    | .ok fs1 =>
      (none, { w with fs := fs1, faults := w.faults.tail,
                      trace := w.trace ++ [.rename src dst none] })

/-- Model of `time.Sleep` for whole seconds. -/
def timeSleep (seconds : Nat) (w : World) : World :=
  { w with now := w.now + seconds, trace := w.trace ++ [.sleep seconds] }

/-- The two primitives `tryMove` calls, over an arbitrary environment. -/
structure Sys (W : Type) where
  rename : Path → Path → W → Option Errno × W
  sleep : Nat → W → W

/-- The primitives of the real environment. -/
def World.sys : Sys World := ⟨osRename, timeSleep⟩

/-- An environment that only counts: `os.Rename` calls made and seconds slept. -/
structure MoveLog where
  renames : Nat
  slept : Nat
deriving DecidableEq, Repr

/-- Primitives answering the i-th `os.Rename` call with `outcomes i`. -/
def scripted (outcomes : Nat → Option Errno) : Sys MoveLog :=
  ⟨fun _ _ l => (outcomes l.renames, { l with renames := l.renames + 1 }),
   fun s l => { l with slept := l.slept + s }⟩

/-! ## Executable resolver (`application.go`, lines 34-73) -/

/-- The part of `os.FileInfo` the program reads. -/
structure FileInfo where
  name : String
  mode : Nat
  isDir : Bool
deriving DecidableEq, Repr, Inhabited

/-- Errors returned by the application code. -/
inductive Err where
  | couldNotRead (dir : Path) (e : Errno)
  | missingOrAmbiguous (dir : Path)
  | releaseDirMissing
  | couldNotArchive (e : Errno)
  | couldNotStage (e : Errno)
deriving DecidableEq, Repr

/-- Model of `strings.HasSuffix`. -/
def hasSuffix (s suffix : String) : Bool := suffix.toList.isSuffixOf s.toList

/-- The constant `executable = os.FileMode(1)` of `isExecutable`. -/
def executable : Nat := 1

/-- Source `isExecutable`; `goos` is `runtime.GOOS`. -/
def isExecutable (goos : String) (file : FileInfo) : Bool :=
  if hasSuffix file.name ".exe" && goos == "windows" then true
  else file.mode &&& 1 == executable && !file.isDir

/-- Model of `ioutil.ReadDir`: the entries of a directory, in directory order. -/
def ioutilReadDir (w : World) (dir : Path) : Except Errno (List FileInfo) :=
  match w.fs.walk dir with
  | .error e => .error e
  | .ok (.file _ _) => .error .ENOTDIR
  | .ok (.dir _ es) => .ok (es.map fun e => ⟨e.1, e.2.mode, e.2.isDir⟩)

/-- Source `getBinaries`. -/
def getBinaries (w : World) (dir : Path) : Except Errno (List FileInfo) :=
  match ioutilReadDir w dir with
  | .error e => .error e
  | .ok files => .ok (files.filter (isExecutable w.goos))

/-- Source `oneBinary`. -/
def oneBinary (w : World) (dir : Path) : Except Err FileInfo :=
  match getBinaries w dir with
  | .error e => .error (.couldNotRead dir e)
  | .ok binaries =>
    match binaries with
    | [b] => .ok b
    | _ => .error (.missingOrAmbiguous dir)

/-- The spec's words for a qualifying entry on a POSIX-like platform: not a
directory, owner-execute permission bit (0100) set. -/
def specQualifies (file : FileInfo) : Bool :=
  !file.isDir && file.mode &&& 0o100 != 0

/-- The spec's words for the resolver over a listing. -/
def specResolve (dir : Path) (files : List FileInfo) : Except Err FileInfo :=
  match files.filter specQualifies with
  | [b] => .ok b
  | _ => .error (.missingOrAmbiguous dir)

/-! ## Move with retry (`application.go`, lines 110-123) -/

/-- The `for i := 0; i < 5; i++` loop of `tryMove` with `n` iterations left and
`err` the current value of the variable `err`. -/
def tryMoveLoop {W : Type} (sys : Sys W) (source dest : Path) :
    Nat → Option Errno → W → Option Errno × W
  | 0, err, w => (err, w)
  | n + 1, _, w =>
    match sys.rename source dest w with
    | (none, w1) => (none, w1)
    | (some e, w1) => tryMoveLoop sys source dest n (some e) (sys.sleep 1 w1)

/-- Source `tryMove`. -/
def tryMove {W : Type} (sys : Sys W) (source dest : Path) (w : W) : Option Errno × W :=
  tryMoveLoop sys source dest 5 none w

/-! ## Daemon (`daemon.go`) -/

/-- The part of `exec.Cmd` the program sets and reads: `Path`, `Dir`, and
`Process` (nil, or the handle of the started process, named by its pid). -/
structure Cmd where
  path : Path
  dir : Path
  process : Option Nat
deriving DecidableEq, Repr, Inhabited

/-- The lines `loop()` writes to the log. -/
inductive LogLine where
  | cannotStartRunning
  | started (pid : Nat)
  | exited (err : Option Nat)
  | requestingRestart
  | killing
  | tryingToStop
  | couldNotStop
  | sentStopRequest
  | terminated
  | cannotStopNotStarted
deriving DecidableEq, Repr

/-- Where the goroutine running `loop()` is: not started, at the `select`
(line 50), blocked in the receive of the stop case (line 85), or returned. -/
inductive Loc where
  | idle | select | stopWait | returned
deriving DecidableEq, Repr

/-- A daemon with its goroutines. `binary` and `cmd` are the struct fields;
`exit`, `stop`, `start`, `kill` are the unbuffered channels, each given by the
goroutines blocked sending on it (for `exit`, the values they send); `running`
and `requestKill` are the locals of `loop()`; `waiters` are the goroutines inside
`cmd.Wait()`, by pid; `sleepers` are the restart goroutines inside `time.Sleep`,
by seconds left. `spawned`, `signalled` and `logs` record what was done. -/
structure Daemon where
  binary : Path
  cmd : Cmd
  exit : List (Option Nat)
  stop : Nat
  start : Nat
  kill : Nat
  running : Bool
  requestKill : Bool
  pc : Loc
  waiters : List Nat
  sleepers : List Nat
  spawned : List Cmd
  signalled : List Nat
  logs : List LogLine
deriving DecidableEq, Repr

/-- Source `NewDaemon`. -/
def NewDaemon (binary : Path) : Daemon :=
  { binary := binary, cmd := ⟨[], [], none⟩, exit := [], stop := 0, start := 0, kill := 0,
    running := false, requestKill := false, pc := .idle,
    waiters := [], sleepers := [], spawned := [], signalled := [], logs := [] }

/-- Source `Daemon.Start`: a goroutine that sends on `start`. -/
def Daemon.Start (d : Daemon) : Daemon := { d with start := d.start + 1 }

/-- Source `Daemon.Stop`: a goroutine that sends on `stop`. -/
def Daemon.Stop (d : Daemon) : Daemon := { d with stop := d.stop + 1 }

/-- Source `Daemon.Kill`: a goroutine that sends on `kill`. -/
def Daemon.Kill (d : Daemon) : Daemon := { d with kill := d.kill + 1 }

/-- Source `Daemon.Loop` up to the first `select` of `loop()` (lines 46-48). -/
def Daemon.Loop (d : Daemon) : Daemon :=
  { d.Start with running := false, requestKill := false, pc := .select }

/-- The fixed delay of the restart goroutine, in seconds (line 69). -/
def restartDelay : Nat := 15

/-- What one step does: a next state, a run-time panic, or nothing because the
step cannot be taken in this state. -/
inductive Outcome where
  | next (d : Daemon)
  | panic
  | disabled
deriving DecidableEq, Repr

/-- The `start` case of `loop()` (lines 51-63). `process` is what `cmd.Start()`
leaves in `cmd.Process`: the handle, or nil when the spawn fails. -/
def Daemon.startCase (d : Daemon) (process : Option Nat) : Outcome :=
  if d.running then
    .next { d with logs := d.logs ++ [.cannotStartRunning] }
  else
    let cmd : Cmd := ⟨d.binary, filepathDir d.binary, process⟩
    match process with
    | none => .panic
    | some pid =>
      .next { d with cmd := cmd, running := true, waiters := d.waiters ++ [pid],
                     spawned := d.spawned ++ [cmd], logs := d.logs ++ [.started pid] }

/-- The `exit` case of `loop()` (lines 64-71). -/
def Daemon.exitCase (d : Daemon) (err : Option Nat) : Daemon :=
  { d with running := false, sleepers := d.sleepers ++ [restartDelay],
           logs := d.logs ++ [.exited err, .requestingRestart] }

/-- The `kill` case of `loop()` (lines 72-76). -/
def Daemon.killCase (d : Daemon) : Daemon :=
  Daemon.Stop { d with requestKill := true, logs := d.logs ++ [.killing] }

/-- The end of the `stop` case (lines 92-94). -/
def Daemon.stopTail (d : Daemon) : Daemon :=
  if d.requestKill then { d with pc := .returned } else { d with pc := .select }

/-- The `stop` case of `loop()` up to its receive on `exit` (lines 77-85) or, when
it does not wait, to its end. `killErr` tells whether `Process.Kill()` returns an
error. -/
def Daemon.stopCase (d : Daemon) (killErr : Bool) : Outcome :=
  let d1 : Daemon := { d with logs := d.logs ++ [.tryingToStop] }
  if d1.running then
    match d1.cmd.process with
    | none => .panic
    | some pid =>
      if killErr then
        .next (Daemon.stopTail { d1 with running := false, logs := d1.logs ++ [.couldNotStop] })
      else
        .next { d1 with signalled := d1.signalled ++ [pid], pc := .stopWait,
                        logs := d1.logs ++ [.sentStopRequest] }
  else
    .next (Daemon.stopTail { d1 with logs := d1.logs ++ [.cannotStopNotStarted] })

/-- The `stop` case from its receive on `exit` to its end (lines 85-94). -/
def Daemon.stopResume (d : Daemon) : Daemon :=
  Daemon.stopTail { d with running := false, logs := d.logs ++ [.terminated] }

/-- The steps of a daemon and of its surroundings. -/
inductive Event where
  | recvStart (process : Option Nat)
  | recvExit (i : Nat)
  | recvKill
  | recvStop (killErr : Bool)
  | stopRecvExit (i : Nat)
  | processExit (pid : Nat) (err : Option Nat)
  | second
  | wake (i : Nat)
  | callStart
  | callStop
  | callKill
deriving DecidableEq, Repr

/-- One step. `recvStart`, `recvExit i`, `recvKill`, `recvStop`: the `select` of
`loop()` receives from a blocked sender. `stopRecvExit i`: the receive of line 85.
`processExit`: `cmd.Wait()` returns in a waiter, which then sends on `exit`.
`second`: a second passes. `wake i`: a restart goroutine whose sleep is over
calls `Start()`. `callStart`, `callStop`, `callKill`: the owner calls the method. -/
def Daemon.step (d : Daemon) : Event → Outcome
  | .recvStart process =>
    if d.pc = .select ∧ 0 < d.start then
      Daemon.startCase { d with start := d.start - 1 } process
    else .disabled
  | .recvExit i =>
    if d.pc = .select then
      match d.exit.get? i with
      | some err => .next (Daemon.exitCase { d with exit := d.exit.eraseIdx i } err)
      | none => .disabled
    else .disabled
  | .recvKill =>
    if d.pc = .select ∧ 0 < d.kill then
      .next (Daemon.killCase { d with kill := d.kill - 1 })
    else .disabled
  | .recvStop killErr =>
    if d.pc = .select ∧ 0 < d.stop then
      Daemon.stopCase { d with stop := d.stop - 1 } killErr
    else .disabled
  | .stopRecvExit i =>
    if d.pc = .stopWait then
      match d.exit.get? i with
      | some _ => .next (Daemon.stopResume { d with exit := d.exit.eraseIdx i })
      | none => .disabled
    else .disabled
  | .processExit pid err =>
    if pid ∈ d.waiters then
      .next { d with waiters := d.waiters.erase pid, exit := d.exit ++ [err] }
    else .disabled
  | .second => .next { d with sleepers := d.sleepers.map fun s => s - 1 }
  | .wake i =>
    match d.sleepers.get? i with
    | some 0 => .next (Daemon.Start { d with sleepers := d.sleepers.eraseIdx i })
    | _ => .disabled
  | .callStart => .next d.Start
  | .callStop => .next d.Stop
  | .callKill => .next d.Kill

/-- A sequence of steps; it ends at the first panic or step that cannot be taken. -/
def Daemon.run (d : Daemon) : List Event → Outcome
  | [] => .next d
  | e :: es =>
    match d.step e with
    | .next d1 => d1.run es
    | .panic => .panic
    | .disabled => .disabled

/-- The state an outcome carries, if any. -/
def Outcome.state? : Outcome → Option Daemon
  | .next d => some d
  | _ => none

/-- Whether the event is a receive of the `select` of `loop()`. -/
def Event.isSelect : Event → Bool
  | .recvStart _ => true
  | .recvExit _ => true
  | .recvKill => true
  | .recvStop _ => true
  | _ => false

/-! ## Application (`application.go`) -/

/-- The lines `Application.Loop` writes to the log after an event. -/
inductive AppLog where
  | couldNotDoRelease (e : Err)
  | ignoredUnknown (basename : String)
deriving DecidableEq, Repr

/-- An application: `dir` and `binary` are the struct fields (the watcher is left
out), `daemon` is the daemon `daemon` points to, with its goroutines. `dir` is
never the root: the runner builds it by joining a directory and an entry name.
`made` counts the calls of `NewDaemon` and `logs` records the log lines. -/
structure Application where
  dir : Path
  binary : FileInfo
  daemon : Daemon
  made : Nat
  logs : List AppLog
deriving DecidableEq, Repr

/-- Source `Application.Name`. -/
def Application.Name (app : Application) : String := filepathBase app.dir

/-- Source `Application.BinaryPath`. -/
def Application.BinaryPath (app : Application) : Path :=
  filepathJoin (filepathJoin app.dir "current") app.binary.name

/-- Source `Application.refreshBinary`. -/
def Application.refreshBinary (app : Application) (w : World) : Option Err × Application :=
  match oneBinary w (filepathJoin app.dir "current") with
  | .error e => (some e, app)
  | .ok binary => (none, { app with binary := binary })

/-- Model of `fmt.Sprintf("%v-%d", name, t)`. -/
def sprintfNameTime (name : String) (t : Nat) : String := name ++ "-" ++ toString t

/-- The permission argument `os.ModePerm`. -/
def osModePerm : Nat := 0o777

/-- Source `Application.doRelease`. -/
def Application.doRelease (app : Application) (w : World) : Option Err × World :=
  let currentDir := filepathJoin app.dir "current"
  let releaseDir := filepathJoin app.dir "release"
  let archiveDir := filepathJoin app.dir "archive"
  if isNotExist (osStat w releaseDir) then (some .releaseDirMissing, w)
  else
    match oneBinary w releaseDir with
    | .error e => (some e, w)
    | .ok _ =>
      let w1 := if isNotExist (osStat w archiveDir) then (osMkdir archiveDir osModePerm w).2
                else w
      match tryMove World.sys currentDir
          (filepathJoin archiveDir (sprintfNameTime app.Name w1.now)) w1 with
      | (some e, w2) => (some (.couldNotArchive e), w2)
      | (none, w2) =>
        match tryMove World.sys releaseDir currentDir w2 with
        | (some e, w3) => (some (.couldNotStage e), w3)
        | (none, w3) => (none, w3)

/-- The `release` case of `Application.Loop`, line 88: `app.daemon.Kill()`. -/
def Application.releaseKill (app : Application) : Application :=
  { app with daemon := app.daemon.Kill }

/-- The `release` case of `Application.Loop` after its receive on `done`
(lines 90-95); the receive returns once `loop()` of the old daemon has returned,
before that there is no result. -/
def Application.releaseResume (app : Application) (w : World) : Option (Application × World) :=
  if app.daemon.pc = .returned then
    let r := app.doRelease w
    let app1 : Application :=
      match r.1 with
      | some e => { app with logs := app.logs ++ [.couldNotDoRelease e] }
      | none => app
    let app2 := (app1.refreshBinary r.2).2
    let app3 : Application :=
      { app2 with daemon := NewDaemon app2.BinaryPath, made := app2.made + 1 }
    some ({ app3 with daemon := app3.daemon.Loop }, r.2)
  else none

/-- The `stop` case of `Application.Loop` (line 97). -/
def Application.stopCommand (app : Application) : Application :=
  { app with daemon := app.daemon.Stop }

/-- The `start` case of `Application.Loop` (lines 99-100). -/
def Application.startCommand (app : Application) (w : World) : Application :=
  let app1 := (app.refreshBinary w).2
  { app1 with daemon := app1.daemon.Start }

/-- The calls one `tryMove` makes when its rename fails with each of `errs` in
turn and then succeeds. -/
def moveCalls (src dst : Path) (errs : List Errno) : List Syscall :=
  (errs.map fun e => [Syscall.rename src dst (some e), Syscall.sleep 1]).flatten
    ++ [Syscall.rename src dst none]

/-- The calls one `tryMove` makes when its rename fails with each of `errs`. -/
def failedCalls (src dst : Path) (errs : List Errno) : List Syscall :=
  (errs.map fun e => [Syscall.rename src dst (some e), Syscall.sleep 1]).flatten

/-- Whether two paths part at some component: neither lies on or under the
other. -/
def diverge : Path → Path → Bool
  | a :: p, b :: q => if a = b then diverge p q else true
  | _, _ => false

/-! ## Concrete inputs -/

/-- A tree whose `release` directory holds one regular file of mode 0700. -/
def ownerOnlyWorld : World :=
  ⟨"linux", .dir 0o755 [("release", .dir 0o755 [("app", .file 0o700 [])])], 0, [], []⟩

/-- A tree whose `release` directory holds one regular file of mode 0755 and a
subdirectory. -/
def oneBinaryWorld : World :=
  ⟨"linux", .dir 0o755 [("release", .dir 0o755
      [("app", .file 0o755 []), ("assets", .dir 0o755 [])])], 0, [], []⟩

/-- The binary of the application `/srv/app`. -/
def appBinary : Path := ["srv", "app", "current", "app"]

/-- A daemon whose loop has just been started: its own first `Start()` is pending. -/
def freshDaemon : Daemon := (NewDaemon appBinary).Loop

/-- A daemon running process 7, with one `Stop()` pending. -/
def runningDaemon : Daemon :=
  { binary := appBinary, cmd := ⟨appBinary, ["srv", "app", "current"], some 7⟩,
    exit := [], stop := 1, start := 0, kill := 0, running := true, requestKill := false,
    pc := .select, waiters := [7], sleepers := [],
    spawned := [⟨appBinary, ["srv", "app", "current"], some 7⟩], signalled := [],
    logs := [.started 7] }

/-- The daemon above after process 7 has exited with status 1 on its own: its
waiter is blocked sending on `exit`. -/
def crashedDaemon : Daemon :=
  { runningDaemon with stop := 0, waiters := [], exit := [some 1] }

/-- The daemon after process 7 was started and a kill was carried out: `loop()`
has returned. -/
def killedDaemon : Daemon :=
  { binary := appBinary, cmd := ⟨appBinary, ["srv", "app", "current"], some 7⟩,
    exit := [], stop := 0, start := 0, kill := 0, running := false, requestKill := true,
    pc := .returned, waiters := [], sleepers := [],
    spawned := [⟨appBinary, ["srv", "app", "current"], some 7⟩], signalled := [7],
    logs := [.started 7, .killing, .tryingToStop, .sentStopRequest, .terminated] }

/-- A daemon killed while a restart goroutine was asleep, whose sleep is now
over. -/
def killedWhileAsleep : Daemon := { killedDaemon with sleepers := [0] }

/-- The application `/srv/app`, its daemon killed by a `release` command. -/
def theApp : Application :=
  { dir := ["srv", "app"], binary := ⟨"app", 0o755, false⟩, daemon := killedDaemon,
    made := 1, logs := [] }

/-- What `/srv/app/current` holds. -/
def currentNode : Node := .dir 0o755 [("app", .file 0o755 [1]), ("any.txt", .file 0o644 [3])]

/-- What `/srv/app/release` holds when a release is staged. -/
def releaseNode : Node := .dir 0o755 [("app2", .file 0o755 [2])]

/-- A tree with `current/` and a staged `release/`, no `archive/` yet. -/
def stagedFs : Node :=
  .dir 0o755 [("srv", .dir 0o755 [("app", .dir 0o755
    [("current", currentNode), ("release", releaseNode)])])]

/-- A tree with `current/` only. -/
def unstagedFs : Node :=
  .dir 0o755 [("srv", .dir 0o755 [("app", .dir 0o755 [("current", currentNode)])])]

/-- At time 1000, a staged release and no transient failure to come. -/
def stagedWorld : World := ⟨"linux", stagedFs, 1000, [], []⟩

/-- At time 1000, a staged release; the first `os.Rename` is going to fail once. -/
def retryWorld : World := ⟨"linux", stagedFs, 1000, [some .EBUSY], []⟩

/-- At time 1000, a `release/` directory that holds `app2` of mode 0755 and
`helper` of mode 0700: two regular files with the owner-execute bit, one of them
with the execute bit for others. -/
def twoOwnerWorld : World :=
  ⟨"linux",
   .dir 0o755 [("srv", .dir 0o755 [("app", .dir 0o755
     [("current", currentNode),
      ("release", .dir 0o755 [("app2", .file 0o755 [2]), ("helper", .file 0o700 [4])])])])],
   1000, [], []⟩

/-- At time 1000, no `release/` directory. -/
def unstagedWorld : World := ⟨"linux", unstagedFs, 1000, [], []⟩

/-! ## Theorems -/

/-! ### Move with retry -/

theorem tryMoveLoop_fail {W : Type} (sys : Sys W) (source dest : Path) (n : Nat)
    (err : Option Errno) (w w1 : W) (e : Errno) (h : sys.rename source dest w = (some e, w1)) :
    tryMoveLoop sys source dest (n + 1) err w
      = tryMoveLoop sys source dest n (some e) (sys.sleep 1 w1) := by
  rw [tryMoveLoop, h]

theorem tryMoveLoop_ok {W : Type} (sys : Sys W) (source dest : Path) (n : Nat)
    (err : Option Errno) (w w1 : W) (h : sys.rename source dest w = (none, w1)) :
    tryMoveLoop sys source dest (n + 1) err w = (none, w1) := by
  rw [tryMoveLoop, h]

theorem tryMoveLoop_scripted_success (outcomes : Nat → Option Errno) (source dest : Path)
    (k : Nat) : ∀ (n : Nat) (err : Option Errno) (l : MoveLog), k < n →
    (∀ i, i < k → outcomes (l.renames + i) ≠ none) → outcomes (l.renames + k) = none →
    tryMoveLoop (scripted outcomes) source dest n err l
      = (none, ⟨l.renames + k + 1, l.slept + k⟩) := by
  induction k with
  | zero =>
    intro n err l hn _ hk
    obtain ⟨m, rfl⟩ : ∃ m, n = m + 1 := ⟨n - 1, by omega⟩
    simp only [Nat.add_zero] at hk
    rw [tryMoveLoop_ok _ _ _ _ _ _ ⟨l.renames + 1, l.slept⟩ (by simp [scripted, hk])]
    rfl
  | succ k ih =>
    intro n err l hn hfail hk
    obtain ⟨m, rfl⟩ : ∃ m, n = m + 1 := ⟨n - 1, by omega⟩
    have h0 : outcomes l.renames ≠ none := by simpa using hfail 0 (by omega)
    obtain ⟨e, he⟩ := Option.ne_none_iff_exists'.mp h0
    have step := ih m (some e) ⟨l.renames + 1, l.slept + 1⟩ (by omega)
      (fun i hi => by
        have := hfail (i + 1) (by omega)
        simpa [Nat.add_assoc, Nat.add_comm 1 i] using this)
      (by simpa [Nat.add_assoc, Nat.add_comm 1 k] using hk)
    rw [tryMoveLoop_fail _ _ _ _ _ _ ⟨l.renames + 1, l.slept⟩ e (by simp [scripted, he])]
    have hs : (scripted outcomes).sleep 1 ⟨l.renames + 1, l.slept⟩
        = ⟨l.renames + 1, l.slept + 1⟩ := rfl
    rw [hs, step]
    simp only [Prod.mk.injEq, MoveLog.mk.injEq, true_and]
    omega

theorem tryMoveLoop_scripted_failure (outcomes : Nat → Option Errno) (source dest : Path) :
    ∀ (n : Nat) (err : Option Errno) (l : MoveLog), 0 < n →
    (∀ i, i < n → outcomes (l.renames + i) ≠ none) →
    tryMoveLoop (scripted outcomes) source dest n err l
      = (outcomes (l.renames + n - 1), ⟨l.renames + n, l.slept + n⟩) := by
  intro n
  induction n with
  | zero => intro _ _ h; omega
  | succ m ih =>
    intro err l _ hfail
    have h0 : outcomes l.renames ≠ none := by simpa using hfail 0 (by omega)
    obtain ⟨e, he⟩ := Option.ne_none_iff_exists'.mp h0
    rw [tryMoveLoop_fail _ _ _ _ _ _ ⟨l.renames + 1, l.slept⟩ e (by simp [scripted, he])]
    have hs : (scripted outcomes).sleep 1 ⟨l.renames + 1, l.slept⟩
        = ⟨l.renames + 1, l.slept + 1⟩ := rfl
    rw [hs]
    cases m with
    | zero => simp [tryMoveLoop, he]
    | succ j =>
      have step := ih (some e) ⟨l.renames + 1, l.slept + 1⟩ (by omega)
        (fun i hi => by
          have := hfail (i + 1) (by omega)
          simpa [Nat.add_assoc, Nat.add_comm 1 i] using this)
      rw [step]
      simp only [Prod.mk.injEq, MoveLog.mk.injEq]
      refine ⟨?_, ?_, ?_⟩
      · congr 1
        show l.renames + 1 + (j + 1) - 1 = l.renames + (j + 1 + 1) - 1
        omega
      · show l.renames + 1 + (j + 1) = l.renames + (j + 1 + 1)
        omega
      · show l.slept + 1 + (j + 1) = l.slept + (j + 1 + 1)
        omega

/-- C7: for every sequence of `os.Rename` outcomes, `tryMove` attempts the rename
until the first success or the 5th attempt. If the outcomes fail exactly `k < 5`
times and then succeed, it makes exactly `k + 1` attempts and returns nil; if the
first 5 outcomes fail, it makes exactly 5 attempts and returns the error of the
5th, a failed attempt. -/
theorem tryMove_bounded_retry (outcomes : Nat → Option Errno) (source dest : Path) :
    (∀ k, k < 5 → (∀ i, i < k → outcomes i ≠ none) → outcomes k = none →
      (tryMove (scripted outcomes) source dest ⟨0, 0⟩).1 = none ∧
      (tryMove (scripted outcomes) source dest ⟨0, 0⟩).2.renames = k + 1) ∧
    ((∀ i, i < 5 → outcomes i ≠ none) →
      (tryMove (scripted outcomes) source dest ⟨0, 0⟩).1 = outcomes 4 ∧
      outcomes 4 ≠ none ∧
      (tryMove (scripted outcomes) source dest ⟨0, 0⟩).2.renames = 5) := by
  constructor
  · intro k hk hfail hok
    have h := tryMoveLoop_scripted_success outcomes source dest k 5 none ⟨0, 0⟩ hk
      (by simpa using hfail) (by simpa using hok)
    simp [tryMove, h]
  · intro hfail
    have h := tryMoveLoop_scripted_failure outcomes source dest 5 none ⟨0, 0⟩ (by omega)
      (by simpa using hfail)
    simp only [tryMove, h]
    exact ⟨trivial, hfail 4 (by omega), trivial⟩

/-- Witness of C7: two failures then a success take 3 attempts; five failures
take 5 attempts and return the last error. -/
theorem tryMove_bounded_retry_witness :
    ((tryMove (scripted fun i => if i < 2 then some Errno.EBUSY else none)
        ["a"] ["b"] ⟨0, 0⟩).1 = none ∧
     (tryMove (scripted fun i => if i < 2 then some Errno.EBUSY else none)
        ["a"] ["b"] ⟨0, 0⟩).2.renames = 2 + 1) ∧
    ((tryMove (scripted fun _ => some Errno.EBUSY) ["a"] ["b"] ⟨0, 0⟩).1 = some Errno.EBUSY ∧
     some Errno.EBUSY ≠ none ∧
     (tryMove (scripted fun _ => some Errno.EBUSY) ["a"] ["b"] ⟨0, 0⟩).2.renames = 5) :=
  ⟨(tryMove_bounded_retry (fun i => if i < 2 then some Errno.EBUSY else none) ["a"] ["b"]).1 2
      (by decide) (by decide) (by decide),
   (tryMove_bounded_retry (fun _ => some Errno.EBUSY) ["a"] ["b"]).2 (by decide)⟩

/-! ### Executable resolver -/

theorem isExecutable_not_windows (goos : String) (h : goos ≠ "windows") (file : FileInfo) :
    isExecutable goos file = (file.mode &&& 1 == 1 && !file.isDir) := by
  have hb : (goos == "windows") = false := by simpa using h
  simp [isExecutable, hb, executable]

theorem getBinaries_of_listing (w : World) (dir : Path) (files : List FileInfo)
    (hls : ioutilReadDir w dir = .ok files) :
    getBinaries w dir = .ok (files.filter (isExecutable w.goos)) := by
  simp [getBinaries, hls]

theorem oneBinary_of_listing (w : World) (dir : Path) (files : List FileInfo)
    (hls : ioutilReadDir w dir = .ok files) :
    oneBinary w dir =
      match files.filter (isExecutable w.goos) with
      | [b] => .ok b
      | _ => .error (.missingOrAmbiguous dir) := by
  simp [oneBinary, getBinaries_of_listing w dir files hls]

/-- C10 (counterexample): a listing whose only entry is a regular file of mode
0700 has exactly one entry with the owner-execute bit, yet `oneBinary` fails; and
on Windows a directory named `tool.exe` qualifies. -/
theorem oneBinary_owner_execute_counterexample :
    ownerOnlyWorld.goos ≠ "windows" ∧
    ioutilReadDir ownerOnlyWorld ["release"] = .ok [⟨"app", 0o700, false⟩] ∧
    specResolve ["release"] [⟨"app", 0o700, false⟩] = .ok ⟨"app", 0o700, false⟩ ∧
    oneBinary ownerOnlyWorld ["release"] = .error (.missingOrAmbiguous ["release"]) ∧
    isExecutable "windows" ⟨"tool.exe", 0o755, true⟩ = true := by
  refine ⟨by decide, rfl, rfl, rfl, rfl⟩

/-- C10 (amended): where `runtime.GOOS` is not `windows`, for every directory
listing `oneBinary` returns an entry exactly when that entry is the only one that
is not a directory and has the lowest permission bit (0001, execute for others)
set; when the number of such entries is not 1 it fails with the
missing-or-ambiguous error; and there a directory never qualifies. -/
theorem oneBinary_posix (w : World) (dir : Path) (files : List FileInfo)
    (hos : w.goos ≠ "windows") (hls : ioutilReadDir w dir = .ok files) :
    (∀ f, oneBinary w dir = .ok f ↔
      files.filter (fun g => g.mode &&& 1 == 1 && !g.isDir) = [f]) ∧
    ((files.filter (fun g => g.mode &&& 1 == 1 && !g.isDir)).length ≠ 1 →
      oneBinary w dir = .error (.missingOrAmbiguous dir)) ∧
    (∀ f, f.isDir = true → isExecutable w.goos f = false) := by
  have hfun : isExecutable w.goos = fun g => (g.mode &&& 1 == 1 && !g.isDir) :=
    funext (isExecutable_not_windows w.goos hos)
  have hone := oneBinary_of_listing w dir files hls
  rw [hfun] at hone
  refine ⟨?_, ?_, ?_⟩
  · intro f
    rw [hone]
    split
    · next b hb => rw [hb]; simp
    · next hne =>
      constructor
      · intro h; cases h
      · intro h; exact absurd h (hne f)
  · intro hlen
    rw [hone]
    split
    · next b hb => rw [hb] at hlen; simp at hlen
    · rfl
  · intro f hf
    rw [isExecutable_not_windows w.goos hos, hf]
    simp

/-- Witness of C10 (amended): a `release` directory with one 0755 file and a
subdirectory resolves to the file; one whose only file has mode 0700 does not
resolve. -/
theorem oneBinary_posix_witness :
    ((∀ f, oneBinary oneBinaryWorld ["release"] = .ok f ↔
      ([⟨"app", 0o755, false⟩, ⟨"assets", 0o755, true⟩] : List FileInfo).filter
        (fun g => g.mode &&& 1 == 1 && !g.isDir) = [f]) ∧
    ((([⟨"app", 0o755, false⟩, ⟨"assets", 0o755, true⟩] : List FileInfo).filter
        (fun g => g.mode &&& 1 == 1 && !g.isDir)).length ≠ 1 →
      oneBinary oneBinaryWorld ["release"] = .error (.missingOrAmbiguous ["release"])) ∧
    (∀ f, f.isDir = true → isExecutable oneBinaryWorld.goos f = false)) ∧
    oneBinary ownerOnlyWorld ["release"] = .error (.missingOrAmbiguous ["release"]) :=
  ⟨oneBinary_posix oneBinaryWorld ["release"]
      [⟨"app", 0o755, false⟩, ⟨"assets", 0o755, true⟩] (by decide) rfl,
   (oneBinary_posix ownerOnlyWorld ["release"] [⟨"app", 0o700, false⟩]
      (by decide) rfl).2.1 (by decide)⟩

/-! ### Daemon -/

theorem step_returned (d : Daemon) (h : d.pc = .returned) (e : Event) :
    d.step e = .disabled ∨
      ∃ d1, d.step e = .next d1 ∧ d1.pc = .returned ∧ d1.spawned = d.spawned := by
  cases e with
  | recvStart process => left; simp [Daemon.step, h]
  | recvExit i => left; simp [Daemon.step, h]
  | recvKill => left; simp [Daemon.step, h]
  | recvStop killErr => left; simp [Daemon.step, h]
  | stopRecvExit i => left; simp [Daemon.step, h]
  | processExit pid err =>
    by_cases hm : pid ∈ d.waiters
    · right
      have hs : d.step (.processExit pid err)
          = .next { d with waiters := d.waiters.erase pid, exit := d.exit ++ [err] } := by
        simp [Daemon.step, hm]
      exact ⟨_, hs, h, rfl⟩
    · left; simp [Daemon.step, hm]
  | second => right; exact ⟨_, rfl, h, rfl⟩
  | wake i =>
    simp only [Daemon.step]
    split
    · right; exact ⟨_, rfl, h, rfl⟩
    · left; rfl
  | callStart => right; exact ⟨_, rfl, h, rfl⟩
  | callStop => right; exact ⟨_, rfl, h, rfl⟩
  | callKill => right; exact ⟨_, rfl, h, rfl⟩

theorem run_returned (es : List Event) : ∀ (d : Daemon), d.pc = .returned →
    d.run es ≠ .panic ∧
      ∀ d2, d.run es = .next d2 → d2.pc = .returned ∧ d2.spawned = d.spawned := by
  induction es with
  | nil =>
    intro d h
    refine ⟨by simp [Daemon.run], ?_⟩
    intro d2 h2
    simp only [Daemon.run, Outcome.next.injEq] at h2
    subst h2
    exact ⟨h, rfl⟩
  | cons e es ih =>
    intro d h
    rcases step_returned d h e with hd | ⟨d1, hs, hpc, hsp⟩
    · simp [Daemon.run, hd]
    · have := ih d1 hpc
      simp only [Daemon.run, hs]
      refine ⟨this.1, ?_⟩
      intro d2 h2
      have h3 := this.2 d2 h2
      exact ⟨h3.1, h3.2.trans hsp⟩

theorem run_append (es fs : List Event) : ∀ (d : Daemon),
    d.run (es ++ fs) =
      match d.run es with
      | .next d1 => d1.run fs
      | .panic => .panic
      | .disabled => .disabled := by
  induction es with
  | nil => intro d; simp [Daemon.run]
  | cons e es ih =>
    intro d
    simp only [List.cons_append, Daemon.run]
    cases d.step e with
    | next d1 => exact ih d1
    | panic => rfl
    | disabled => rfl

theorem run_seconds (n : Nat) : ∀ (d : Daemon),
    d.run (List.replicate n .second)
      = .next { d with sleepers := d.sleepers.map fun s => s - n } := by
  induction n with
  | zero => intro d; simp [Daemon.run]
  | succ n ih =>
    intro d
    simp only [List.replicate_succ, Daemon.run, Daemon.step]
    rw [ih]
    simp only [List.map_map, Outcome.next.injEq]
    congr 1
    apply List.map_congr_left
    intro s _
    simp only [Function.comp]
    omega

theorem step_recvStart_stopped (d : Daemon) (hpc : d.pc = .select) (hq : 0 < d.start)
    (hr : d.running = false) (pid : Nat) :
    d.step (.recvStart (some pid)) =
      .next { d with start := d.start - 1,
                     cmd := ⟨d.binary, filepathDir d.binary, some pid⟩, running := true,
                     waiters := d.waiters ++ [pid],
                     spawned := d.spawned ++ [⟨d.binary, filepathDir d.binary, some pid⟩],
                     logs := d.logs ++ [.started pid] } := by
  simp [Daemon.step, hpc, hq, Daemon.startCase, hr]

theorem step_recvStart_running (d : Daemon) (hpc : d.pc = .select) (hq : 0 < d.start)
    (hr : d.running = true) (process : Option Nat) :
    d.step (.recvStart process) =
      .next { d with start := d.start - 1, logs := d.logs ++ [.cannotStartRunning] } := by
  simp [Daemon.step, hpc, hq, Daemon.startCase, hr]

theorem step_recvExit (d : Daemon) (i : Nat) (err : Option Nat) (hpc : d.pc = .select)
    (hi : d.exit.get? i = some err) :
    d.step (.recvExit i) = .next (Daemon.exitCase { d with exit := d.exit.eraseIdx i } err) := by
  simp only [Daemon.step, hpc, if_true, hi]

/-- C5: a `StartRequested` received while Stopped, the spawn yielding a process
handle, spawns exactly one subprocess, whose executable is the daemon's binary
path and whose working directory is the directory containing it, and leaves the
daemon Running; received while Running it spawns nothing, whatever a spawn would
yield, and leaves the daemon Running with the same process. -/
theorem start_semantics (d : Daemon) (hpc : d.pc = .select) (hq : 0 < d.start) :
    (d.running = false → ∀ pid, ∃ d1, d.step (.recvStart (some pid)) = .next d1 ∧
      d1.running = true ∧ d1.pc = .select ∧
      d1.spawned = d.spawned ++ [⟨d.binary, filepathDir d.binary, some pid⟩] ∧
      d1.cmd = ⟨d.binary, filepathDir d.binary, some pid⟩) ∧
    (d.running = true → ∀ process, ∃ d1, d.step (.recvStart process) = .next d1 ∧
      d1.running = true ∧ d1.pc = .select ∧ d1.spawned = d.spawned ∧ d1.cmd = d.cmd ∧
      d1.waiters = d.waiters) := by
  constructor
  · intro hr pid
    exact ⟨_, step_recvStart_stopped d hpc hq hr pid, rfl, hpc, rfl, rfl⟩
  · intro hr process
    exact ⟨_, step_recvStart_running d hpc hq hr process, hr, hpc, rfl, rfl, rfl⟩

/-- Witness of C5: the first start of a fresh daemon, and a second start while
it runs. -/
theorem start_semantics_witness :
    (∃ d1, freshDaemon.step (.recvStart (some 7)) = .next d1 ∧
      d1.running = true ∧ d1.pc = .select ∧
      d1.spawned = freshDaemon.spawned ++
        [⟨freshDaemon.binary, filepathDir freshDaemon.binary, some 7⟩] ∧
      d1.cmd = ⟨freshDaemon.binary, filepathDir freshDaemon.binary, some 7⟩) ∧
    (∃ d1, runningDaemon.Start.step (.recvStart (some 8)) = .next d1 ∧
      d1.running = true ∧ d1.pc = .select ∧ d1.spawned = runningDaemon.Start.spawned ∧
      d1.cmd = runningDaemon.Start.cmd ∧ d1.waiters = runningDaemon.Start.waiters) :=
  ⟨(start_semantics freshDaemon (by decide) (by decide)).1 (by decide) 7,
   (start_semantics runningDaemon.Start (by decide) (by decide)).2 (by decide) (some 8)⟩

/-- C3 (code at the failing input): a fresh daemon whose spawn fails, so that
`cmd.Process` stays nil, panics in the `start` case; nothing is logged and no
restart is scheduled. -/
theorem spawn_failure_panics :
    freshDaemon.running = false ∧ freshDaemon.step (.recvStart none) = .panic := by
  decide

/-- C4 (code at the failing input): with the first `Start()` and a `Kill()` both
pending, after the `kill` case `loop()` is back at its `select` and has signalled
nothing; the pending start is then received and spawns a subprocess; only the
`stop` case that follows ends the loop. -/
theorem kill_then_start_spawns :
    (freshDaemon.Kill.run [.recvKill]).state?.map
        (fun d => (d.pc, d.requestKill, d.stop, d.signalled, d.spawned))
      = some (.select, true, 1, [], []) ∧
    (freshDaemon.Kill.run [.recvKill, .recvStart (some 7)]).state?.map
        (fun d => (d.pc, d.running, d.spawned))
      = some (.select, true, [⟨appBinary, filepathDir appBinary, some 7⟩]) ∧
    (freshDaemon.Kill.run [.recvKill, .recvStart (some 7), .recvStop false,
        .processExit 7 none, .stopRecvExit 0]).state?.map (fun d => d.pc)
      = some .returned := by
  decide

/-- C6: every exit notification received by the `select` of `loop()` leaves the
daemon Stopped and adds exactly one restart goroutine, which calls `Start()` after
sleeping 15 seconds and not earlier; nothing is spawned or enqueued by the step
itself. Once `loop()` has returned, no sequence of steps panics or spawns a
subprocess, and a pending start is never received. -/
theorem auto_restart (d : Daemon) (i : Nat) (err : Option Nat)
    (hpc : d.pc = .select) (hi : d.exit.get? i = some err) :
    (∃ d1, d.step (.recvExit i) = .next d1 ∧ d1.running = false ∧ d1.pc = .select ∧
      d1.sleepers = d.sleepers ++ [15] ∧ d1.start = d.start ∧ d1.spawned = d.spawned ∧
      d1.exit = d.exit.eraseIdx i ∧
      (∀ n, n < 15 →
        d1.run (List.replicate n .second ++ [.wake d.sleepers.length]) = .disabled) ∧
      (d1.run (List.replicate 15 .second ++ [.wake d.sleepers.length])).state?.map
          (fun d2 => (d2.start, d2.sleepers.length, d2.spawned))
        = some (d.start + 1, d.sleepers.length, d.spawned)) ∧
    (∀ (k : Daemon) (es : List Event), k.pc = .returned →
      k.run es ≠ .panic ∧
      (∀ process, k.step (.recvStart process) = .disabled) ∧
      ∀ k2, k.run es = .next k2 → k2.pc = .returned ∧ k2.spawned = k.spawned) := by
  constructor
  · refine ⟨_, step_recvExit d i err hpc hi, rfl, hpc, rfl, rfl, rfl, rfl, ?_, ?_⟩
    · intro n hn
      rw [run_append, run_seconds]
      simp only [Daemon.exitCase, restartDelay, Daemon.run, Daemon.step, List.map_append,
        List.map_cons, List.map_nil]
      have hlen : (List.map (fun s => s - n) d.sleepers).length = d.sleepers.length := by simp
      rw [List.get?_eq_getElem?, List.getElem?_append_right (by omega)]
      simp only [hlen, Nat.sub_self, List.getElem?_cons_zero]
      obtain ⟨m, hm⟩ : ∃ m, 15 - n = m + 1 := ⟨15 - n - 1, by omega⟩
      rw [hm]
      rfl
    · rw [run_append, run_seconds]
      simp only [Daemon.exitCase, restartDelay, Daemon.run, Daemon.step, List.map_append,
        List.map_cons, List.map_nil]
      have hlen : (List.map (fun s => s - 15) d.sleepers).length = d.sleepers.length := by simp
      rw [List.get?_eq_getElem?, List.getElem?_append_right (by omega)]
      simp only [hlen, Nat.sub_self, List.getElem?_cons_zero]
      simp [Outcome.state?, Daemon.Start, List.eraseIdx_append_of_length_le, hlen]
  · intro k es hk
    have := run_returned es k hk
    exact ⟨this.1, fun process => by simp [Daemon.step, hk], this.2⟩

/-- Witness of C6: the exit of process 7 received by the `select`; and a killed
daemon whose restart goroutine wakes up: the start it sends is never received. -/
theorem auto_restart_witness :
    (∃ d1, crashedDaemon.step (.recvExit 0) = .next d1 ∧ d1.running = false ∧
      d1.pc = .select ∧
      d1.sleepers = crashedDaemon.sleepers ++ [15] ∧ d1.start = crashedDaemon.start ∧
      d1.spawned = crashedDaemon.spawned ∧
      d1.exit = crashedDaemon.exit.eraseIdx 0 ∧
      (∀ n, n < 15 →
        d1.run (List.replicate n .second ++ [.wake crashedDaemon.sleepers.length])
          = .disabled) ∧
      (d1.run (List.replicate 15 .second ++ [.wake crashedDaemon.sleepers.length])).state?.map
          (fun d2 => (d2.start, d2.sleepers.length, d2.spawned))
        = some (crashedDaemon.start + 1, crashedDaemon.sleepers.length,
            crashedDaemon.spawned)) ∧
    (killedWhileAsleep.run [.wake 0] ≠ .panic ∧
      (∀ process, killedWhileAsleep.step (.recvStart process) = .disabled) ∧
      ∀ k2, killedWhileAsleep.run [.wake 0] = .next k2 →
        k2.pc = .returned ∧ k2.spawned = killedWhileAsleep.spawned) :=
  ⟨(auto_restart crashedDaemon 0 (some 1) (by decide) (by decide)).1,
   (auto_restart crashedDaemon 0 (some 1) (by decide) (by decide)).2
      killedWhileAsleep [.wake 0] (by decide)⟩

theorem step_recvStop_signalled (d : Daemon) (pid : Nat) (hpc : d.pc = .select)
    (hq : 0 < d.stop) (hr : d.running = true) (hp : d.cmd.process = some pid) :
    d.step (.recvStop false) =
      .next { d with stop := d.stop - 1, signalled := d.signalled ++ [pid], pc := .stopWait,
                     logs := d.logs ++ [.tryingToStop] ++ [.sentStopRequest] } := by
  simp [Daemon.step, hpc, hq, Daemon.stopCase, hr, hp]

theorem step_select_disabled (d : Daemon) (h : d.pc ≠ .select) (e : Event)
    (he : e.isSelect = true) : d.step e = .disabled := by
  cases e <;> simp_all [Daemon.step, Event.isSelect]

/-- C1 (counterexample): a daemon running process 7 receives a stop, and
`Process.Kill()` returns an error; when the process then terminates, its exit
notification is received by the `select` of `loop()`, whose `exit` case schedules
a restart. The same happens when the process has terminated just before the stop
is received, which is when `Process.Kill()` reports a finished process. And once
such a notification has been left behind and process 8 has been started, a stop
of process 8 whose signal is sent without error receives the notification of
process 7 in the stop case, so that the exit of process 8 reaches the `select`
and schedules a restart. -/
theorem stop_signal_failure_restarts :
    freshDaemon.run [.recvStart (some 7), .callStop] = .next runningDaemon ∧
    runningDaemon.running = true ∧
    (crashedDaemon.run [.callStop, .recvStop true, .recvExit 0]).state?.map
        (fun d => (d.pc, d.running, d.waiters, d.exit, d.sleepers))
      = some (.select, false, [], [], [restartDelay]) ∧
    (runningDaemon.run [.recvStop true]).state?.map
        (fun d => (d.pc, d.running, d.waiters, d.exit, d.sleepers))
      = some (.select, false, [7], [], []) ∧
    (runningDaemon.run [.recvStop true, .processExit 7 none, .recvExit 0]).state?.map
        (fun d => (d.pc, d.running, d.waiters, d.exit, d.sleepers))
      = some (.select, false, [], [], [restartDelay]) ∧
    runningDaemon.run [.recvStop true, .processExit 7 none, .stopRecvExit 0] = .disabled ∧
    (freshDaemon.run [.recvStart (some 7), .processExit 7 none, .callStop, .recvStop true,
        .callStart, .recvStart (some 8), .callStop]).state?.map
        (fun d => (d.pc, d.running, d.cmd.process, d.stop, d.waiters, d.exit, d.sleepers))
      = some (.select, true, some 8, 1, [8], [none], []) ∧
    (freshDaemon.run [.recvStart (some 7), .processExit 7 none, .callStop, .recvStop true,
        .callStart, .recvStart (some 8), .callStop, .recvStop false, .stopRecvExit 0,
        .processExit 8 none, .recvExit 0]).state?.map
        (fun d => (d.pc, d.running, d.waiters, d.exit, d.sleepers))
      = some (.select, false, [], [], [restartDelay]) := by
  refine ⟨by decide, by decide, rfl, rfl, rfl, by decide, rfl, rfl⟩

/-- C1 (amended): for every Running daemon whose process has not yet terminated,
where the goroutine waiting for that process is the only one inside `cmd.Wait()`
and no goroutine is blocked sending on `exit` (no exit notification of an earlier
process is pending or still to come), a stop whose termination signal is sent
without error blocks `loop()` in the stop case, where no receive of the `select`
can be taken; when the process terminates, the stop case itself receives the exit
notification; the daemon ends Stopped, no restart goroutine and no start has been
added, and no exit notification is left for the `exit` case. When sending the
signal returns an error, the stop case ends at once, with the daemon Stopped and
without receiving an exit notification. -/
theorem stop_suppresses_restart (d : Daemon) (pid : Nat) (err : Option Nat)
    (hpc : d.pc = .select) (hq : 0 < d.stop) (hr : d.running = true)
    (hp : d.cmd.process = some pid) (hw : d.waiters = [pid]) (hex : d.exit = []) :
    ∃ d1 d2 d3, d.step (.recvStop false) = .next d1 ∧
      d1.step (.processExit pid err) = .next d2 ∧
      d2.step (.stopRecvExit 0) = .next d3 ∧
      d1.pc = .stopWait ∧ d2.pc = .stopWait ∧ d1.signalled = d.signalled ++ [pid] ∧
      (∀ e : Event, e.isSelect = true → d1.step e = .disabled ∧ d2.step e = .disabled) ∧
      d3.running = false ∧ d3.sleepers = d.sleepers ∧ d3.start = d.start ∧
      d3.spawned = d.spawned ∧ d3.exit = [] ∧ d3.waiters = [] ∧
      d3.pc = (if d.requestKill then .returned else .select) ∧
      (∀ i, d3.step (.recvExit i) = .disabled) ∧
      ∃ d4, d.step (.recvStop true) = .next d4 ∧ d4.running = false ∧
        d4.exit = d.exit ∧ d4.waiters = d.waiters ∧ d4.sleepers = d.sleepers ∧
        d4.pc = (if d.requestKill then .returned else .select) := by
  have h1 := step_recvStop_signalled d pid hpc hq hr hp
  have h4 : d.step (.recvStop true) =
      .next (Daemon.stopTail { d with stop := d.stop - 1, running := false,
                                      logs := d.logs ++ [.tryingToStop] ++ [.couldNotStop] }) := by
    simp [Daemon.step, hpc, hq, Daemon.stopCase, hr, hp]
  have h2 : ∀ D : Daemon, D.waiters = [pid] → D.exit = [] →
      D.step (.processExit pid err) = .next { D with waiters := [], exit := [err] } := by
    intro D hw hex
    simp [Daemon.step, hw, hex]
  have h3 : ∀ D : Daemon, D.pc = .stopWait → D.exit = [err] →
      D.step (.stopRecvExit 0) = .next (Daemon.stopResume { D with exit := [] }) := by
    intro D hpc hex
    simp [Daemon.step, hpc, hex]
  refine ⟨_, _, _, h1, h2 _ hw hex, h3 _ rfl rfl, rfl, rfl, rfl, ?_, ?_⟩
  · intro e he
    exact ⟨step_select_disabled _ (by simp) e he, step_select_disabled _ (by simp) e he⟩
  · refine ⟨?_, ?_, ?_, ?_, ?_, ?_, ?_, ?_, _, h4, ?_⟩ <;>
      cases hk : d.requestKill <;>
      simp [Daemon.stopResume, Daemon.stopTail, hk, Daemon.step, hw, hex]

/-- Witness of C1 (amended): the daemon running process 7 with one pending
stop. -/
theorem stop_suppresses_restart_witness :
    ∃ d1 d2 d3, runningDaemon.step (.recvStop false) = .next d1 ∧
      d1.step (.processExit 7 none) = .next d2 ∧
      d2.step (.stopRecvExit 0) = .next d3 ∧
      d1.pc = .stopWait ∧ d2.pc = .stopWait ∧
      d1.signalled = runningDaemon.signalled ++ [7] ∧
      (∀ e : Event, e.isSelect = true → d1.step e = .disabled ∧ d2.step e = .disabled) ∧
      d3.running = false ∧ d3.sleepers = runningDaemon.sleepers ∧
      d3.start = runningDaemon.start ∧
      d3.spawned = runningDaemon.spawned ∧ d3.exit = [] ∧ d3.waiters = [] ∧
      d3.pc = (if runningDaemon.requestKill then .returned else .select) ∧
      (∀ i, d3.step (.recvExit i) = .disabled) ∧
      ∃ d4, runningDaemon.step (.recvStop true) = .next d4 ∧ d4.running = false ∧
        d4.exit = runningDaemon.exit ∧ d4.waiters = runningDaemon.waiters ∧
        d4.sleepers = runningDaemon.sleepers ∧
        d4.pc = (if runningDaemon.requestKill then .returned else .select) :=
  stop_suppresses_restart runningDaemon 7 none (by decide) (by decide) (by decide)
    (by decide) (by decide) (by decide)

/-! ### File system -/

theorem lookupEntry_eraseEntry_self (c : String) (es : List (String × Node)) :
    lookupEntry c (eraseEntry c es) = none := by
  induction es with
  | nil => rfl
  | cons e es ih =>
    obtain ⟨k, n⟩ := e
    by_cases h : k = c
    · simp [eraseEntry, h, ih]
    · simp [eraseEntry, lookupEntry, h, ih]

theorem lookupEntry_eraseEntry_ne (b c : String) (h : b ≠ c) (es : List (String × Node)) :
    lookupEntry b (eraseEntry c es) = lookupEntry b es := by
  induction es with
  | nil => rfl
  | cons e es ih =>
    obtain ⟨k, n⟩ := e
    by_cases hk : k = c
    · have hcb : ¬ c = b := fun hcb => h hcb.symm
      subst hk
      simp [eraseEntry, lookupEntry, ih, hcb]
    · by_cases hb : k = b
      · subst hb
        simp [eraseEntry, lookupEntry, hk]
      · simp [eraseEntry, lookupEntry, hk, hb, ih]

theorem lookupEntry_append_none (c : String) (es fs : List (String × Node))
    (h : lookupEntry c es = none) : lookupEntry c (es ++ fs) = lookupEntry c fs := by
  induction es with
  | nil => rfl
  | cons e es ih =>
    obtain ⟨k, n⟩ := e
    by_cases hk : k = c
    · simp [lookupEntry, hk] at h
    · simp only [lookupEntry, hk, if_false] at h
      simp [lookupEntry, hk, ih h]

theorem lookupEntry_append_some (c : String) (es fs : List (String × Node)) (n : Node)
    (h : lookupEntry c es = some n) : lookupEntry c (es ++ fs) = some n := by
  induction es with
  | nil => simp [lookupEntry] at h
  | cons e es ih =>
    obtain ⟨k, m⟩ := e
    by_cases hk : k = c
    · simp only [lookupEntry, hk, if_true] at h
      simp [lookupEntry, hk, h]
    · simp only [lookupEntry, hk, if_false] at h
      simp [lookupEntry, hk, ih h]

theorem lookupEntry_setEntry_self (c : String) (x : Node) (es : List (String × Node)) :
    lookupEntry c (setEntry c x es) = some x := by
  rw [setEntry, lookupEntry_append_none _ _ _ (lookupEntry_eraseEntry_self c es)]
  simp [lookupEntry]

theorem lookupEntry_setEntry_ne (b c : String) (h : b ≠ c) (x : Node)
    (es : List (String × Node)) : lookupEntry b (setEntry c x es) = lookupEntry b es := by
  rw [setEntry]
  cases hl : lookupEntry b (eraseEntry c es) with
  | none =>
    rw [lookupEntry_append_none _ _ _ hl, ← lookupEntry_eraseEntry_ne b c h es, hl]
    have hcb : ¬ c = b := fun hcb => h hcb.symm
    simp [lookupEntry, hcb]
  | some n =>
    rw [lookupEntry_append_some _ _ _ n hl, ← lookupEntry_eraseEntry_ne b c h es, hl]

theorem walk_nil (fs : Node) : fs.walk [] = .ok fs := by
  cases fs <;> rfl

theorem walk_file_cons (m : Nat) (d : List Nat) (c : String) (cs : Path) :
    (Node.file m d).walk (c :: cs) = .error .ENOTDIR := rfl

theorem walk_dir_cons (m : Nat) (es : List (String × Node)) (c : String) (cs : Path) :
    (Node.dir m es).walk (c :: cs) =
      match lookupEntry c es with
      | none => .error .ENOENT
      | some n => n.walk cs := rfl

theorem diverge_not_under : ∀ (p q : Path), diverge p q = true → under p q = false
  | [], _, h => by simp [diverge] at h
  | _ :: _, [], h => by simp [diverge] at h
  | a :: p, b :: q, h => by
    by_cases hab : a = b
    · simp only [diverge, hab, if_true] at h
      simp [under, hab, diverge_not_under p q h]
    · simp [under, hab]

theorem diverge_ne : ∀ (p q : Path), diverge p q = true → p ≠ q
  | [], _, h => by simp [diverge] at h
  | _ :: _, [], h => by simp [diverge] at h
  | a :: p, b :: q, h => by
    by_cases hab : a = b
    · simp only [diverge, hab, if_true] at h
      intro heq
      exact diverge_ne p q h (List.cons.inj heq).2
    · intro heq
      exact hab (List.cons.inj heq).1

theorem diverge_append_left (d : Path) (p q : Path) (h : diverge p q = true) :
    diverge (d ++ p) (d ++ q) = true := by
  induction d with
  | nil => simpa using h
  | cons a d ih => simp [diverge, ih]

theorem diverge_left_ne_nil (p q : Path) (h : diverge p q = true) : p ≠ [] := by
  intro hp; subst hp; simp [diverge] at h

theorem diverge_right_ne_nil (p q : Path) (h : diverge p q = true) : q ≠ [] := by
  intro hq; subst hq; cases p <;> simp [diverge] at h

theorem place_file (m : Nat) (d : List Nat) (p : Path) (x : Node) :
    (Node.file m d).place p x = .file m d := by
  cases p <;> rfl

theorem remove_file (m : Nat) (d : List Nat) (p : Path) :
    (Node.file m d).remove p = .file m d := by
  cases p <;> rfl

theorem walk_place_diverge : ∀ (p q : Path) (fs x : Node), diverge p q = true →
    (fs.place p x).walk q = fs.walk q
  | [], _, _, _, h => by simp [diverge] at h
  | _ :: _, [], _, _, h => by simp [diverge] at h
  | a :: p, b :: q, .file m d, x, _ => by rw [place_file]
  | [a], b :: q, .dir m es, x, h => by
    have hab : ¬ a = b := by
      intro hab
      simp [diverge, hab] at h
    simp only [Node.place, walk_dir_cons]
    rw [lookupEntry_setEntry_ne b a (fun hba => hab hba.symm)]
  | a :: c2 :: cs, b :: q, .dir m es, x, h => by
    cases hl : lookupEntry a es with
    | none => simp only [Node.place, hl]
    | some n =>
      simp only [Node.place, hl, walk_dir_cons]
      by_cases hab : a = b
      · subst hab
        rw [lookupEntry_setEntry_self, hl]
        exact walk_place_diverge (c2 :: cs) q n x (by simpa [diverge] using h)
      · rw [lookupEntry_setEntry_ne b a (fun hba => hab hba.symm)]

theorem walk_remove_diverge : ∀ (p q : Path) (fs : Node), diverge p q = true →
    (fs.remove p).walk q = fs.walk q
  | [], _, _, h => by simp [diverge] at h
  | _ :: _, [], _, h => by simp [diverge] at h
  | a :: p, b :: q, .file m d, _ => by rw [remove_file]
  | [a], b :: q, .dir m es, h => by
    have hab : ¬ a = b := by
      intro hab
      simp [diverge, hab] at h
    simp only [Node.remove, walk_dir_cons]
    rw [lookupEntry_eraseEntry_ne b a (fun hba => hab hba.symm)]
  | a :: c2 :: cs, b :: q, .dir m es, h => by
    cases hl : lookupEntry a es with
    | none => simp only [Node.remove, hl]
    | some n =>
      simp only [Node.remove, hl, walk_dir_cons]
      by_cases hab : a = b
      · subst hab
        rw [lookupEntry_setEntry_self, hl]
        exact walk_remove_diverge (c2 :: cs) q n (by simpa [diverge] using h)
      · rw [lookupEntry_setEntry_ne b a (fun hba => hab hba.symm)]

theorem walk_place_hit : ∀ (p : Path) (fs x : Node) (m : Nat) (es : List (String × Node)),
    p ≠ [] → fs.walk p.dropLast = .ok (.dir m es) → (fs.place p x).walk p = .ok x
  | [], _, _, _, _, hp, _ => absurd rfl hp
  | [a], fs, x, m, es, _, h => by
    simp only [List.dropLast, walk_nil, Except.ok.injEq] at h
    subst h
    simp only [Node.place, walk_dir_cons, lookupEntry_setEntry_self, walk_nil]
  | a :: c2 :: cs, .file m0 d, x, m, es, _, h => by
    simp [List.dropLast, walk_file_cons] at h
  | a :: c2 :: cs, .dir m0 es0, x, m, es, _, h => by
    simp only [List.dropLast, walk_dir_cons] at h
    cases hl : lookupEntry a es0 with
    | none => simp [hl] at h
    | some n =>
      simp only [hl] at h
      simp only [Node.place, hl, walk_dir_cons, lookupEntry_setEntry_self]
      exact walk_place_hit (c2 :: cs) n x m es (by simp) h

theorem walk_remove_hit : ∀ (p : Path) (fs n : Node),
    p ≠ [] → fs.walk p = .ok n → (fs.remove p).walk p = .error .ENOENT
  | [], _, _, hp, _ => absurd rfl hp
  | a :: cs, .file m0 d, n, _, h => by simp [walk_file_cons] at h
  | [a], .dir m0 es0, n, _, _ => by
    simp only [Node.remove, walk_dir_cons, lookupEntry_eraseEntry_self]
  | a :: c2 :: cs, .dir m0 es0, n, _, h => by
    simp only [walk_dir_cons] at h
    cases hl : lookupEntry a es0 with
    | none => simp [hl] at h
    | some n1 =>
      simp only [hl] at h
      simp only [Node.remove, hl, walk_dir_cons, lookupEntry_setEntry_self]
      exact walk_remove_hit (c2 :: cs) n1 n (by simp) h

theorem walk_append_ok : ∀ (p q : Path) (fs n : Node), fs.walk p = .ok n →
    fs.walk (p ++ q) = n.walk q
  | [], q, fs, n, h => by
    simp only [walk_nil, Except.ok.injEq] at h
    subst h
    rfl
  | a :: cs, q, .file m0 d, n, h => by simp [walk_file_cons] at h
  | a :: cs, q, .dir m0 es0, n, h => by
    simp only [walk_dir_cons] at h
    simp only [List.cons_append, walk_dir_cons]
    cases hl : lookupEntry a es0 with
    | none => simp [hl] at h
    | some n1 =>
      simp only [hl] at h
      exact walk_append_ok cs q n1 n h

theorem walk_append_error : ∀ (p q : Path) (fs : Node) (e : Errno), fs.walk p = .error e →
    fs.walk (p ++ q) = .error e
  | [], q, fs, e, h => by simp [walk_nil] at h
  | a :: cs, q, .file m0 d, e, h => by
    simp only [walk_file_cons] at h
    simpa [walk_file_cons] using h
  | a :: cs, q, .dir m0 es0, e, h => by
    simp only [walk_dir_cons] at h
    simp only [List.cons_append, walk_dir_cons]
    cases hl : lookupEntry a es0 with
    | none => simpa [hl] using h
    | some n1 =>
      simp only [hl] at h
      simp only
      exact walk_append_error cs q n1 e h

theorem diverge_symm : ∀ (p q : Path), diverge p q = diverge q p
  | [], [] => rfl
  | [], _ :: _ => rfl
  | _ :: _, [] => rfl
  | a :: p, b :: q => by
    by_cases hab : a = b
    · subst hab
      simp [diverge, diverge_symm p q]
    · have hba : ¬ b = a := fun h => hab h.symm
      simp [diverge, hab, hba]

theorem renameFs_ok (fs fs2 : Node) (src dst : Path) (hd : diverge src dst = true)
    (h : renameFs fs src dst = .ok fs2)
    (hfresh : (∀ s, fs.walk src = .ok s → s.isDir = true) ∨ ∃ e, fs.walk dst = .error e) :
    ∃ s, fs.walk src = .ok s ∧ (∃ e, fs.walk dst = .error e) ∧
      fs2.walk dst = .ok s ∧ fs2.walk src = .error .ENOENT ∧
      ∀ q, diverge src q = true → diverge dst q = true → fs2.walk q = fs.walk q := by
  have hsrc := diverge_left_ne_nil src dst hd
  have hdst := diverge_right_ne_nil src dst hd
  have hne := diverge_ne src dst hd
  have hun := diverge_not_under src dst hd
  have hds : diverge dst src = true := by rw [diverge_symm]; exact hd
  unfold renameFs at h
  cases hs : fs.walk src with
  | error e => simp [hs] at h
  | ok s =>
    simp only [hs, hsrc, hdst, or_self, if_false, hne, hun, Bool.false_eq_true] at h
    have key : ∀ m es, (fs.remove src).walk dst.dropLast = .ok (.dir m es) →
        fs2 = (fs.remove src).place dst s →
        fs2.walk dst = .ok s ∧ fs2.walk src = .error .ENOENT ∧
        ∀ q, diverge src q = true → diverge dst q = true → fs2.walk q = fs.walk q := by
      intro m es hpar hfs
      subst hfs
      refine ⟨walk_place_hit dst _ s m es hdst hpar, ?_, ?_⟩
      · rw [walk_place_diverge dst src _ s hds]
        exact walk_remove_hit src fs s hsrc hs
      · intro q h1 h2
        rw [walk_place_diverge dst q _ s h2, walk_remove_diverge src q fs h1]
    cases hw : fs.walk dst with
    | ok n =>
      cases n with
      | dir m es => simp [hw] at h
      | file m d =>
        rcases hfresh with hdir | ⟨e, he⟩
        · simp [hw, hdir s hs] at h
        · rw [hw] at he; cases he
    | error e =>
      simp only [hw] at h
      cases hp : (fs.remove src).walk dst.dropLast with
      | error e2 => simp [hp] at h
      | ok n =>
        cases n with
        | file m d => simp [hp] at h
        | dir m es =>
          simp only [hp, Except.ok.injEq] at h
          exact ⟨s, rfl, ⟨e, rfl⟩, key m es hp h.symm⟩

theorem renameFs_error_of_missing_parent (fs : Node) (src dst : Path) (e : Errno)
    (hd : diverge src dst.dropLast = true) (hpar : fs.walk dst.dropLast = .error e) :
    ∃ e2, renameFs fs src dst = .error e2 := by
  have hdne : dst ≠ [] := by
    intro h; subst h; cases src <;> simp [diverge] at hd
  have hw : fs.walk dst = .error e := by
    have := walk_append_error dst.dropLast [dst.getLast hdne] fs e hpar
    rwa [List.dropLast_append_getLast] at this
  unfold renameFs
  cases hs : fs.walk src with
  | error e1 => exact ⟨e1, rfl⟩
  | ok s =>
    simp only []
    split
    · exact ⟨_, rfl⟩
    · split
      · split
        · exact ⟨_, rfl⟩
        · rename_i h1 h2 h3
          exfalso
          rw [← h2, hs] at hw
          cases hw
      · split
        · exact ⟨_, rfl⟩
        · rw [hw]
          simp only [walk_remove_diverge src dst.dropLast fs hd, hpar]
          exact ⟨_, rfl⟩

theorem osRename_cases (src dst : Path) (w : World) :
    (∃ e, osRename src dst w =
      (some e, { w with faults := w.faults.tail,
                        trace := w.trace ++ [.rename src dst (some e)] })) ∨
    (∃ fs1, renameFs w.fs src dst = .ok fs1 ∧ osRename src dst w =
      (none, { w with fs := fs1, faults := w.faults.tail,
                      trace := w.trace ++ [.rename src dst none] })) := by
  unfold osRename
  split
  · next e _ => exact Or.inl ⟨e, rfl⟩
  · cases hr : renameFs w.fs src dst with
    | error e => exact Or.inl ⟨e, rfl⟩
    | ok fs1 => exact Or.inr ⟨fs1, rfl, rfl⟩

theorem tryMoveLoop_world (src dst : Path) : ∀ (n : Nat) (err : Option Errno) (w : World),
    (∃ errs : List Errno, errs.length < n ∧
      (tryMoveLoop World.sys src dst n err w).1 = none ∧
      renameFs w.fs src dst = .ok (tryMoveLoop World.sys src dst n err w).2.fs ∧
      (tryMoveLoop World.sys src dst n err w).2.trace = w.trace ++ moveCalls src dst errs ∧
      (tryMoveLoop World.sys src dst n err w).2.now = w.now + errs.length ∧
      (tryMoveLoop World.sys src dst n err w).2.goos = w.goos) ∨
    (∃ errs : List Errno, errs.length = n ∧
      ((tryMoveLoop World.sys src dst n err w).1 = none → n = 0) ∧
      (∀ fs1, renameFs w.fs src dst = .ok fs1 → n ≤ w.faults.length) ∧
      (tryMoveLoop World.sys src dst n err w).2.fs = w.fs ∧
      (tryMoveLoop World.sys src dst n err w).2.trace = w.trace ++ failedCalls src dst errs ∧
      (tryMoveLoop World.sys src dst n err w).2.now = w.now + n ∧
      (tryMoveLoop World.sys src dst n err w).2.goos = w.goos) := by
  intro n
  induction n with
  | zero =>
    intro err w
    right
    exact ⟨[], rfl, fun _ => rfl, fun _ _ => Nat.zero_le _, rfl,
      by simp [tryMoveLoop, failedCalls], rfl, rfl⟩
  | succ n ih =>
    intro err w
    rcases osRename_cases src dst w with ⟨e, he⟩ | ⟨fs1, hfs, hok⟩
    · have hstep := tryMoveLoop_fail World.sys src dst n err w _ e he
      rw [hstep]
      have hfa : ∀ fs1, renameFs w.fs src dst = .ok fs1 → 1 ≤ w.faults.length := by
        intro fs1 hfs1
        unfold osRename at he
        cases hf : w.faults with
        | nil => simp [hf, hfs1] at he
        | cons a l => simp
      rcases ih (some e) (World.sys.sleep 1
          { w with faults := w.faults.tail,
                   trace := w.trace ++ [.rename src dst (some e)] })
        with ⟨errs, hlen, h1, h2, h3, h4, h5⟩ | ⟨errs, hlen, h1, hf, h2, h3, h4, h5⟩
      · left
        refine ⟨e :: errs, by simp; omega, h1, h2, ?_, ?_, h5⟩
        · rw [h3]
          simp [World.sys, timeSleep, moveCalls]
        · rw [h4]
          simp [World.sys, timeSleep]
          omega
      · right
        refine ⟨e :: errs, by simp [hlen], ?_, ?_, h2, ?_, ?_, h5⟩
        · intro hnone
          have hn := h1 hnone
          subst hn
          simp [tryMoveLoop] at hnone
        · intro fs1 hfs1
          have h1 := hfa fs1 hfs1
          have h2 := hf fs1 hfs1
          simp only [World.sys, timeSleep, List.length_tail] at h2
          omega
        · rw [h3]
          simp [World.sys, timeSleep, failedCalls]
        · rw [h4]
          simp [World.sys, timeSleep]
          omega
    · left
      have hstep := tryMoveLoop_ok World.sys src dst n err w _ hok
      rw [hstep]
      exact ⟨[], by simp, rfl, hfs, by simp [moveCalls], rfl, rfl⟩

/-! ### Release protocol -/

theorem oneBinary_error_of_count (w : World) (dir : Path)
    (h : ∀ files, ioutilReadDir w dir = .ok files →
      (files.filter (isExecutable w.goos)).length ≠ 1) :
    ∃ e, oneBinary w dir = .error e := by
  cases hls : ioutilReadDir w dir with
  | error e => exact ⟨.couldNotRead dir e, by simp [oneBinary, getBinaries, hls]⟩
  | ok files =>
    rw [oneBinary_of_listing w dir files hls]
    have hlen := h files hls
    split
    · next b hb => rw [hb] at hlen; simp at hlen
    · exact ⟨_, rfl⟩

theorem oneBinary_ok_of_count (w : World) (dir : Path) (files : List FileInfo)
    (hls : ioutilReadDir w dir = .ok files)
    (h : (files.filter (isExecutable w.goos)).length = 1) :
    ∃ b, oneBinary w dir = .ok b := by
  rw [oneBinary_of_listing w dir files hls]
  match hf : files.filter (isExecutable w.goos), h with
  | [b], _ => exact ⟨b, rfl⟩

theorem walk_of_listing (w : World) (dir : Path) (files : List FileInfo)
    (hls : ioutilReadDir w dir = .ok files) : ∃ m es, w.fs.walk dir = .ok (.dir m es) := by
  unfold ioutilReadDir at hls
  cases hw : w.fs.walk dir with
  | error e => simp [hw] at hls
  | ok n =>
    cases n with
    | file m d => simp [hw] at hls
    | dir m es => exact ⟨m, es, rfl⟩

/-- C8 (amended): when `release/` does not exist, or its listing does not hold
exactly one entry that `isExecutable` accepts, which is the test `oneBinary`
applies (also when `release/` cannot be listed), `doRelease` returns an error and
leaves the world as it was: no directory is created, no move is attempted, and
the file system is unchanged. -/
theorem doRelease_precondition_failure (app : Application) (w : World)
    (h : isNotExist (osStat w (filepathJoin app.dir "release")) = true ∨
      ∀ files, ioutilReadDir w (filepathJoin app.dir "release") = .ok files →
        (files.filter (isExecutable w.goos)).length ≠ 1) :
    (app.doRelease w).1 ≠ none ∧ (app.doRelease w).2 = w := by
  unfold Application.doRelease
  by_cases hne : isNotExist (osStat w (filepathJoin app.dir "release")) = true
  · simp [hne]
  · rcases h with h | h
    · exact absurd h hne
    · obtain ⟨e, he⟩ := oneBinary_error_of_count w _ h
      simp [hne, he]

theorem osMkdir_facts (w : World) (arc : Path) (perm : Nat)
    (hmiss : isNotExist (osStat w arc) = true) :
    (osMkdir arc perm w).2.now = w.now ∧ (osMkdir arc perm w).2.goos = w.goos ∧
    (osMkdir arc perm w).2.faults = w.faults ∧
    (∀ q, diverge arc q = true → (osMkdir arc perm w).2.fs.walk q = w.fs.walk q) ∧
    (∀ n : String, (osMkdir arc perm w).2.fs.walk (arc ++ [n]) = w.fs.walk (arc ++ [n])) ∧
    ((∃ e, (osMkdir arc perm w).2.fs.walk arc = .error e) ∨
      (osMkdir arc perm w).2.trace = w.trace ++ [.mkdir arc none]) := by
  have hw : w.fs.walk arc = .error .ENOENT := by
    unfold isNotExist osStat at hmiss
    split at hmiss
    · next heq => exact heq
    · cases hmiss
  have hne : arc ≠ [] := by
    intro h0
    rw [h0, walk_nil] at hw
    cases hw
  obtain ⟨a, l, rfl⟩ := List.exists_cons_of_ne_nil hne
  have hkeep : ∀ e, mkdirFs w.fs (a :: l) perm = .error e →
      (osMkdir (a :: l) perm w).2.now = w.now ∧ (osMkdir (a :: l) perm w).2.goos = w.goos ∧
      (osMkdir (a :: l) perm w).2.faults = w.faults ∧
      (∀ q, diverge (a :: l) q = true → (osMkdir (a :: l) perm w).2.fs.walk q = w.fs.walk q) ∧
      (∀ n : String, (osMkdir (a :: l) perm w).2.fs.walk ((a :: l) ++ [n])
        = w.fs.walk ((a :: l) ++ [n])) ∧
      ((∃ e, (osMkdir (a :: l) perm w).2.fs.walk (a :: l) = .error e) ∨
        (osMkdir (a :: l) perm w).2.trace = w.trace ++ [.mkdir (a :: l) none]) := by
    intro e he
    have hos : osMkdir (a :: l) perm w
        = (some e, { w with trace := w.trace ++ [.mkdir (a :: l) (some e)] }) := by
      simp [osMkdir, he]
    rw [hos]
    exact ⟨rfl, rfl, rfl, fun _ _ => rfl, fun _ => rfl, Or.inl ⟨_, hw⟩⟩
  cases hm : mkdirFs w.fs (a :: l) perm with
  | error e => exact hkeep e hm
  | ok fs1 =>
    have hm2 := hm
    simp only [mkdirFs, hw] at hm2
    cases hp : w.fs.walk (a :: l).dropLast with
    | error e => simp [hp] at hm2
    | ok n =>
      cases n with
      | file m d => simp [hp] at hm2
      | dir m es =>
        simp only [hp, Except.ok.injEq] at hm2
        have hos : osMkdir (a :: l) perm w
            = (none, { w with fs := fs1, trace := w.trace ++ [.mkdir (a :: l) none] }) := by
          simp [osMkdir, hm]
        rw [hos]
        refine ⟨rfl, rfl, rfl, ?_, ?_, Or.inr rfl⟩
        · intro q hq
          show fs1.walk q = w.fs.walk q
          rw [← hm2]
          exact walk_place_diverge _ q _ _ hq
        · intro n
          show fs1.walk ((a :: l) ++ [n]) = w.fs.walk ((a :: l) ++ [n])
          rw [walk_append_error _ [n] _ _ hw, ← hm2,
            walk_append_ok _ [n] _ _ (walk_place_hit (a :: l) w.fs (.dir perm []) m es hne hp)]
          rfl

theorem tryMove_ok_world (src dst : Path) (w w2 : World)
    (h : tryMove World.sys src dst w = (none, w2)) :
    ∃ errs : List Errno, errs.length < 5 ∧ renameFs w.fs src dst = .ok w2.fs ∧
      w2.trace = w.trace ++ moveCalls src dst errs ∧ w2.now = w.now + errs.length ∧
      w2.goos = w.goos := by
  unfold tryMove at h
  rcases tryMoveLoop_world src dst 5 none w with
    ⟨errs, hlen, _, h2, h3, h4, h5⟩ | ⟨_, _, h1, _⟩
  · rw [h] at h2 h3 h4 h5
    exact ⟨errs, hlen, h2, h3, h4, h5⟩
  · rw [h] at h1
    exact absurd (h1 rfl) (by decide)

theorem tryMove_error_world (src dst : Path) (w w2 : World) (e : Errno)
    (h : tryMove World.sys src dst w = (some e, w2)) :
    ∃ errs : List Errno, errs.length = 5 ∧ w2.fs = w.fs ∧
      w2.trace = w.trace ++ failedCalls src dst errs ∧ w2.now = w.now + 5 := by
  unfold tryMove at h
  rcases tryMoveLoop_world src dst 5 none w with
    ⟨_, _, h1, _⟩ | ⟨errs, hlen, _, _, h2, h3, h4, _⟩
  · rw [h] at h1
    cases h1
  · rw [h] at h2 h3 h4
    exact ⟨errs, hlen, h2, h3, h4⟩

theorem release_shuffle (d : Path) (nm : String) (w1 w2 w3 : World)
    (hcur : ∃ m es, w1.fs.walk (d ++ ["current"]) = .ok (.dir m es))
    (hm1 : tryMove World.sys (d ++ ["current"]) (d ++ ["archive"] ++ [nm]) w1 = (none, w2))
    (hm2 : tryMove World.sys (d ++ ["release"]) (d ++ ["current"]) w2 = (none, w3)) :
    w3.fs.walk (d ++ ["archive"] ++ [nm]) = w1.fs.walk (d ++ ["current"]) ∧
    w3.fs.walk (d ++ ["current"]) = w1.fs.walk (d ++ ["release"]) ∧
    w3.fs.walk (d ++ ["release"]) = .error .ENOENT ∧
    (∃ e, w1.fs.walk (d ++ ["archive"] ++ [nm]) = .error e) ∧
    (∀ n : String, n ≠ nm →
      w3.fs.walk (d ++ ["archive"] ++ [n]) = w1.fs.walk (d ++ ["archive"] ++ [n])) ∧
    (¬ ∃ e, w1.fs.walk (d ++ ["archive"]) = .error e) ∧
    ∃ errs1 errs2 : List Errno, errs1.length < 5 ∧ errs2.length < 5 ∧
      w3.trace = w1.trace ++ moveCalls (d ++ ["current"]) (d ++ ["archive"] ++ [nm]) errs1
        ++ moveCalls (d ++ ["release"]) (d ++ ["current"]) errs2 ∧
      w3.now = w1.now + errs1.length + errs2.length := by
  obtain ⟨errs1, hl1, hr1, ht1, hn1, _⟩ := tryMove_ok_world _ _ _ _ hm1
  obtain ⟨errs2, hl2, hr2, ht2, hn2, _⟩ := tryMove_ok_world _ _ _ _ hm2
  have dce : diverge (d ++ ["current"]) (d ++ ["archive"] ++ [nm]) = true := by
    rw [List.append_assoc]
    exact diverge_append_left d _ _ (by simp [diverge])
  have dca : diverge (d ++ ["current"]) (d ++ ["archive"]) = true :=
    diverge_append_left d _ _ (by decide)
  have drc : diverge (d ++ ["release"]) (d ++ ["current"]) = true :=
    diverge_append_left d _ _ (by decide)
  have dcr : diverge (d ++ ["current"]) (d ++ ["release"]) = true :=
    diverge_append_left d _ _ (by decide)
  have der : diverge (d ++ ["archive"] ++ [nm]) (d ++ ["release"]) = true := by
    rw [List.append_assoc]
    exact diverge_append_left d _ _ (by simp [diverge])
  have dre : diverge (d ++ ["release"]) (d ++ ["archive"] ++ [nm]) = true := by
    rw [diverge_symm]; exact der
  have dcn : ∀ n : String, diverge (d ++ ["current"]) (d ++ ["archive"] ++ [n]) = true := by
    intro n
    rw [List.append_assoc]
    exact diverge_append_left d _ _ (by simp [diverge])
  have drn : ∀ n : String, diverge (d ++ ["release"]) (d ++ ["archive"] ++ [n]) = true := by
    intro n
    rw [List.append_assoc]
    exact diverge_append_left d _ _ (by simp [diverge])
  have den : ∀ n : String, n ≠ nm →
      diverge (d ++ ["archive"] ++ [nm]) (d ++ ["archive"] ++ [n]) = true := by
    intro n hn
    apply diverge_append_left
    have : ¬ nm = n := fun h => hn h.symm
    simp [diverge, this]
  obtain ⟨mc, esc, hwc⟩ := hcur
  obtain ⟨s1, hs1, hfresh1, hdst1, hsrc1, hframe1⟩ :=
    renameFs_ok w1.fs w2.fs _ _ dce hr1 (Or.inl (by
      intro s hs
      rw [hwc] at hs
      cases hs
      rfl))
  obtain ⟨s2, hs2, _, hdst2, hsrc2, hframe2⟩ :=
    renameFs_ok w2.fs w3.fs _ _ drc hr2 (Or.inr ⟨_, hsrc1⟩)
  refine ⟨?_, ?_, hsrc2, hfresh1, ?_, ?_, errs1, errs2, hl1, hl2, ?_, ?_⟩
  · rw [hframe2 _ dre dce, hdst1, hs1]
  · rw [hdst2, ← hs2, hframe1 _ dcr der]
  · intro n hn
    rw [hframe2 _ (drn n) (dcn n), hframe1 _ (dcn n) (den n hn)]
  · rintro ⟨e, he⟩
    have hpar : w1.fs.walk (d ++ ["archive"] ++ [nm]).dropLast = .error e := by
      rw [List.dropLast_concat]
      exact he
    have hdv : diverge (d ++ ["current"]) (d ++ ["archive"] ++ [nm]).dropLast = true := by
      rw [List.dropLast_concat]
      exact dca
    obtain ⟨e2, he2⟩ := renameFs_error_of_missing_parent w1.fs _ _ e hdv hpar
    rw [he2] at hr1
    cases hr1
  · rw [ht2, ht1]
  · rw [hn2, hn1]

theorem doRelease_after_checks (app : Application) (w : World) (b : FileInfo)
    (hne : isNotExist (osStat w (filepathJoin app.dir "release")) = false)
    (hb : oneBinary w (filepathJoin app.dir "release") = .ok b) (w1 : World)
    (hw1 : w1 = if isNotExist (osStat w (app.dir ++ ["archive"])) = true
      then (osMkdir (app.dir ++ ["archive"]) osModePerm w).2 else w) :
    app.doRelease w =
      match tryMove World.sys (app.dir ++ ["current"])
          (app.dir ++ ["archive"] ++ [sprintfNameTime app.Name w1.now]) w1 with
      | (some e, w2) => (some (.couldNotArchive e), w2)
      | (none, w2) =>
        match tryMove World.sys (app.dir ++ ["release"]) (app.dir ++ ["current"]) w2 with
        | (some e, w3) => (some (.couldNotStage e), w3)
        | (none, w3) => (none, w3) := by
  subst hw1
  simp only [filepathJoin] at hne hb
  simp only [Application.doRelease, filepathJoin, hne, hb]
  rfl

theorem archive_step (w : World) (arc : Path) :
    ∃ w1 : World,
      w1 = (if isNotExist (osStat w arc) = true then (osMkdir arc osModePerm w).2 else w) ∧
      w1.now = w.now ∧
      (∀ q, diverge arc q = true → w1.fs.walk q = w.fs.walk q) ∧
      (∀ n : String, w1.fs.walk (arc ++ [n]) = w.fs.walk (arc ++ [n])) ∧
      ((∃ e, w1.fs.walk arc = .error e) ∨
        w1.trace = w.trace ++
          (if isNotExist (osStat w arc) = true then [.mkdir arc none] else [])) ∧
      (∃ mk, mk.length ≤ 1 ∧ w1.trace = w.trace ++ mk ∧
        ∀ c ∈ mk, ∃ r, c = .mkdir arc r) := by
  by_cases hmiss : isNotExist (osStat w arc) = true
  · obtain ⟨h1, _, _, h4, h5, h6⟩ := osMkdir_facts w arc osModePerm hmiss
    refine ⟨_, rfl, ?_, ?_, ?_, ?_, ?_⟩
    · simpa [hmiss] using h1
    · simpa [hmiss] using h4
    · simpa [hmiss] using h5
    · simpa [hmiss] using h6
    · simp only [hmiss, if_true]
      unfold osMkdir
      cases mkdirFs w.fs arc osModePerm with
      | error e => exact ⟨[.mkdir arc (some e)], by simp, rfl, by simp⟩
      | ok fs1 => exact ⟨[.mkdir arc none], by simp, rfl, by simp⟩
  · refine ⟨w, by simp [hmiss], rfl, fun _ _ => rfl, fun _ => rfl, Or.inr (by simp [hmiss]),
      [], by simp, by simp, by simp⟩

/-- C9 (amended): let `release/` hold exactly one entry the resolver accepts and
`current/` be a directory, and let t be the unix time when `doRelease` is called,
which is the time it reads just before its first move attempt. When `doRelease`
returns success: the archive entry named after the base name of the application
root, a dash and t did not exist before and now holds what `current/` held;
`current/` holds what `release/` held; `release/` no longer exists; every other
entry of `archive/` is as before; the calls made are, in this order, the creation
of `archive/` if it was missing, the attempts to move `current/` to the entry,
the last of which succeeds, and then the attempts to move `release/` to
`current/`, each failed attempt followed by a sleep of one second; and it returns
at time t plus the number of failed attempts. When the first move fails, no move
of `release/` is attempted. -/
theorem doRelease_success (app : Application) (w : World)
    (hrel : ∃ files, ioutilReadDir w (filepathJoin app.dir "release") = .ok files ∧
      (files.filter (isExecutable w.goos)).length = 1)
    (hcur : ∃ m es, w.fs.walk (filepathJoin app.dir "current") = .ok (.dir m es)) :
    ((app.doRelease w).1 = none →
      (app.doRelease w).2.fs.walk
          (filepathJoin (filepathJoin app.dir "archive")
            (sprintfNameTime (filepathBase app.dir) w.now))
        = w.fs.walk (filepathJoin app.dir "current") ∧
      (app.doRelease w).2.fs.walk (filepathJoin app.dir "current")
        = w.fs.walk (filepathJoin app.dir "release") ∧
      (app.doRelease w).2.fs.walk (filepathJoin app.dir "release") = .error .ENOENT ∧
      (∃ e, w.fs.walk (filepathJoin (filepathJoin app.dir "archive")
            (sprintfNameTime (filepathBase app.dir) w.now)) = .error e) ∧
      (∀ n : String, n ≠ sprintfNameTime (filepathBase app.dir) w.now →
        (app.doRelease w).2.fs.walk (filepathJoin (filepathJoin app.dir "archive") n)
          = w.fs.walk (filepathJoin (filepathJoin app.dir "archive") n)) ∧
      ∃ errs1 errs2 : List Errno, errs1.length < 5 ∧ errs2.length < 5 ∧
        (app.doRelease w).2.trace = w.trace ++
          (if isNotExist (osStat w (filepathJoin app.dir "archive")) = true
            then [.mkdir (filepathJoin app.dir "archive") none] else []) ++
          moveCalls (filepathJoin app.dir "current")
            (filepathJoin (filepathJoin app.dir "archive")
              (sprintfNameTime (filepathBase app.dir) w.now)) errs1 ++
          moveCalls (filepathJoin app.dir "release") (filepathJoin app.dir "current") errs2 ∧
        (app.doRelease w).2.now = w.now + errs1.length + errs2.length) ∧
    (∀ e, (app.doRelease w).1 = some (.couldNotArchive e) →
      ∃ (mk : List Syscall) (errs : List Errno), mk.length ≤ 1 ∧
        (∀ c ∈ mk, ∃ r, c = .mkdir (filepathJoin app.dir "archive") r) ∧ errs.length = 5 ∧
        (app.doRelease w).2.trace = w.trace ++ mk ++
          failedCalls (filepathJoin app.dir "current")
            (filepathJoin (filepathJoin app.dir "archive")
              (sprintfNameTime (filepathBase app.dir) w.now)) errs) := by
  obtain ⟨files, hls, hcount⟩ := hrel
  obtain ⟨mr, esr, hwr⟩ := walk_of_listing w _ files hls
  obtain ⟨b, hb⟩ := oneBinary_ok_of_count w _ files hls hcount
  have hne : isNotExist (osStat w (filepathJoin app.dir "release")) = false := by
    simp [isNotExist, osStat, hwr]
  obtain ⟨w1, hw1, hnow, hframe, harc, htr, mk, hmk1, hmk2, hmk3⟩ :=
    archive_step w (app.dir ++ ["archive"])
  have heq := doRelease_after_checks app w b hne hb w1 hw1
  simp only [filepathJoin, Application.Name, hnow] at heq hcur ⊢
  have dac : diverge (app.dir ++ ["archive"]) (app.dir ++ ["current"]) = true :=
    diverge_append_left _ _ _ (by decide)
  have dar : diverge (app.dir ++ ["archive"]) (app.dir ++ ["release"]) = true :=
    diverge_append_left _ _ _ (by decide)
  rw [heq]
  cases hm1 : tryMove World.sys (app.dir ++ ["current"])
      (app.dir ++ ["archive"] ++ [sprintfNameTime (filepathBase app.dir) w.now]) w1 with
  | mk o1 w2 =>
    cases o1 with
    | some e1 =>
      dsimp only
      refine ⟨fun h => by simp at h, ?_⟩
      intro e _
      obtain ⟨errs, hl, _, ht, _⟩ := tryMove_error_world _ _ _ _ _ hm1
      refine ⟨mk, errs, hmk1, hmk3, hl, ?_⟩
      show w2.trace = _
      rw [ht, hmk2]
    | none =>
      dsimp only
      cases hm2 : tryMove World.sys (app.dir ++ ["release"]) (app.dir ++ ["current"]) w2 with
      | mk o2 w3 =>
        cases o2 with
        | some e2 =>
          dsimp only
          refine ⟨fun h => by simp at h, fun e h => by simp at h⟩
        | none =>
          dsimp only
          refine ⟨fun _ => ?_, fun e h => by simp at h⟩
          have hcur1 : ∃ m es, w1.fs.walk (app.dir ++ ["current"]) = .ok (.dir m es) := by
            rw [hframe _ dac]
            exact hcur
          obtain ⟨g1, g2, g3, g4, g5, g6, errs1, errs2, hl1, hl2, gt, gn⟩ :=
            release_shuffle app.dir _ w1 w2 w3 hcur1 hm1 hm2
          have htr1 : w1.trace = w.trace ++
              (if isNotExist (osStat w (app.dir ++ ["archive"])) = true
                then [.mkdir (app.dir ++ ["archive"]) none] else []) := by
            rcases htr with h | h
            · exact absurd h g6
            · exact h
          refine ⟨?_, ?_, g3, ?_, ?_, errs1, errs2, hl1, hl2, ?_, ?_⟩
          · show w3.fs.walk _ = _
            rw [g1, hframe _ dac]
          · show w3.fs.walk _ = _
            rw [g2, hframe _ dar]
          · rw [← harc]
            exact g4
          · intro n hn
            show w3.fs.walk _ = _
            rw [g5 n hn, harc]
          · show w3.trace = _
            rw [gt, htr1]
          · show w3.now = _
            rw [gn, hnow]

/-- C8 (counterexample): `release/` holds `app2` (0755) and `helper` (0700). Two
entries are regular files with the owner-execute bit, so in the spec's words
`release/` does not contain exactly one qualifying executable; yet `isExecutable`
accepts `app2` only, and `doRelease` returns success after creating `archive/` and
moving both directories. -/
theorem doRelease_owner_execute_counterexample :
    twoOwnerWorld.goos ≠ "windows" ∧
    ioutilReadDir twoOwnerWorld ["srv", "app", "release"]
      = .ok [⟨"app2", 0o755, false⟩, ⟨"helper", 0o700, false⟩] ∧
    ([⟨"app2", 0o755, false⟩, ⟨"helper", 0o700, false⟩] : List FileInfo).filter specQualifies
      = [⟨"app2", 0o755, false⟩, ⟨"helper", 0o700, false⟩] ∧
    specResolve ["srv", "app", "release"] [⟨"app2", 0o755, false⟩, ⟨"helper", 0o700, false⟩]
      = .error (.missingOrAmbiguous ["srv", "app", "release"]) ∧
    oneBinary twoOwnerWorld ["srv", "app", "release"] = .ok ⟨"app2", 0o755, false⟩ ∧
    (theApp.doRelease twoOwnerWorld).1 = none ∧
    (theApp.doRelease twoOwnerWorld).2.fs.walk ["srv", "app", "release"] = .error .ENOENT ∧
    (theApp.doRelease twoOwnerWorld).2.fs.walk ["srv", "app", "archive", "app-1000"]
      = .ok currentNode ∧
    (theApp.doRelease twoOwnerWorld).2.trace =
      [.mkdir ["srv", "app", "archive"] none,
       .rename ["srv", "app", "current"] ["srv", "app", "archive", "app-1000"] none,
       .rename ["srv", "app", "release"] ["srv", "app", "current"] none] := by
  refine ⟨by decide, rfl, by decide, rfl, rfl, rfl, rfl, rfl, rfl⟩

/-- Witness of C8 (amended): `/srv/app` without a `release/` directory. -/
theorem doRelease_precondition_failure_witness :
    (theApp.doRelease unstagedWorld).1 ≠ none ∧
    (theApp.doRelease unstagedWorld).2 = unstagedWorld :=
  doRelease_precondition_failure theApp unstagedWorld (Or.inl rfl)

/-- C9 (counterexample): the first rename fails once and is retried after one
second. `doRelease` returns success at time 1001; the archive entry is `app-1000`
and there is no entry `app-1001`. -/
theorem doRelease_timestamp_counterexample :
    (theApp.doRelease retryWorld).1 = none ∧
    (theApp.doRelease retryWorld).2.now = 1001 ∧
    (theApp.doRelease retryWorld).2.fs.walk
        ["srv", "app", "archive", sprintfNameTime "app" 1001] = .error .ENOENT ∧
    (theApp.doRelease retryWorld).2.fs.walk
        ["srv", "app", "archive", sprintfNameTime "app" 1000] = .ok currentNode ∧
    (theApp.doRelease retryWorld).2.trace =
      [.mkdir ["srv", "app", "archive"] none,
       .rename ["srv", "app", "current"] ["srv", "app", "archive", "app-1000"] (some .EBUSY),
       .sleep 1,
       .rename ["srv", "app", "current"] ["srv", "app", "archive", "app-1000"] none,
       .rename ["srv", "app", "release"] ["srv", "app", "current"] none] := by
  refine ⟨rfl, rfl, rfl, rfl, rfl⟩

/-- Witness of C9 (amended): the staged release of `/srv/app` at time 1000. -/
theorem doRelease_success_witness :
    (theApp.doRelease stagedWorld).1 = none ∧
    (theApp.doRelease stagedWorld).2.fs.walk ["srv", "app", "archive", "app-1000"]
      = .ok currentNode ∧
    (theApp.doRelease stagedWorld).2.fs.walk ["srv", "app", "current"] = .ok releaseNode ∧
    (theApp.doRelease stagedWorld).2.fs.walk ["srv", "app", "release"] = .error .ENOENT :=
  have h := (doRelease_success theApp stagedWorld
    ⟨[⟨"app2", 0o755, false⟩], rfl, by decide⟩ ⟨_, _, rfl⟩).1 rfl
  ⟨rfl, h.1, h.2.1, h.2.2.1⟩

/-! ### Release command -/

/-- C2 (counterexample): the application `/srv/app`, its daemon killed, handles a
`release` command with no `release/` directory. `doRelease` returns an error and
is logged; a second daemon is made for the binary in `current/`, its loop is
started, and its first step spawns that binary again. -/
theorem failed_release_restarts :
    freshDaemon.run [.recvStart (some 7), .callKill, .recvKill, .recvStop false,
      .processExit 7 none, .stopRecvExit 0] = .next killedDaemon ∧
    (theApp.doRelease unstagedWorld).1 = some .releaseDirMissing ∧
    (theApp.releaseResume unstagedWorld).map (fun r => (r.1.made, r.1.daemon, r.1.logs))
      = some (2, freshDaemon, [.couldNotDoRelease .releaseDirMissing]) ∧
    (freshDaemon.run [.recvStart (some 8)]).state?.map (fun d => (d.running, d.spawned))
      = some (true, [⟨appBinary, ["srv", "app", "current"], some 8⟩]) := by
  refine ⟨by decide, rfl, rfl, rfl⟩

/-- C2 (amended): for every `release` command whose `doRelease` returns an error,
the application logs the error, resolves the binary in `current/` again (keeping
the one it had when that fails), makes one new daemon for the resulting binary
path and starts its loop, which enqueues a start; when that start is received and
the spawn succeeds, the binary runs again. -/
theorem failed_release_makes_daemon (app : Application) (w : World) (e : Err)
    (hret : app.daemon.pc = .returned) (herr : (app.doRelease w).1 = some e) :
    ∃ app2, app.releaseResume w = some (app2, (app.doRelease w).2) ∧
      app2.logs = app.logs ++ [.couldNotDoRelease e] ∧
      app2.made = app.made + 1 ∧
      app2.binary =
        (match oneBinary (app.doRelease w).2 (filepathJoin app.dir "current") with
          | .ok b => b
          | .error _ => app.binary) ∧
      app2.dir = app.dir ∧
      app2.daemon = (NewDaemon app2.BinaryPath).Loop ∧
      app2.daemon.start = 1 ∧ app2.daemon.pc = .select ∧
      ∀ pid, ∃ d1, app2.daemon.step (.recvStart (some pid)) = .next d1 ∧
        d1.running = true ∧
        d1.spawned = [⟨app2.BinaryPath, filepathDir app2.BinaryPath, some pid⟩] := by
  have hres : app.releaseResume w = some
      ({ ((({ app with logs := app.logs ++ [.couldNotDoRelease e] } : Application).refreshBinary
            (app.doRelease w).2).2) with
          daemon := (NewDaemon ((({ app with logs := app.logs ++ [.couldNotDoRelease e] }
            : Application).refreshBinary (app.doRelease w).2).2).BinaryPath).Loop,
          made := ((({ app with logs := app.logs ++ [.couldNotDoRelease e] }
            : Application).refreshBinary (app.doRelease w).2).2).made + 1 },
        (app.doRelease w).2) := by
    simp [Application.releaseResume, hret, herr]
  refine ⟨_, hres, ?_, ?_, ?_, ?_, ?_, rfl, rfl, ?_⟩
  · simp only [Application.refreshBinary]
    split <;> rfl
  · simp only [Application.refreshBinary]
    split <;> rfl
  · simp only [Application.refreshBinary]
    split <;> simp_all
  · simp only [Application.refreshBinary]
    split <;> rfl
  · rfl
  · intro pid
    exact ⟨_, step_recvStart_stopped _ rfl (Nat.zero_lt_one) rfl pid, rfl, rfl⟩

/-- Witness of C2 (amended): `/srv/app` with no `release/` directory. -/
theorem failed_release_makes_daemon_witness :
    ∃ app2,
      theApp.releaseResume unstagedWorld = some (app2, (theApp.doRelease unstagedWorld).2) ∧
      app2.logs = theApp.logs ++ [.couldNotDoRelease .releaseDirMissing] ∧
      app2.made = theApp.made + 1 ∧
      app2.binary =
        (match oneBinary (theApp.doRelease unstagedWorld).2
            (filepathJoin theApp.dir "current") with
          | .ok b => b
          | .error _ => theApp.binary) ∧
      app2.dir = theApp.dir ∧
      app2.daemon = (NewDaemon app2.BinaryPath).Loop ∧
      app2.daemon.start = 1 ∧ app2.daemon.pc = .select ∧
      ∀ pid, ∃ d1, app2.daemon.step (.recvStart (some pid)) = .next d1 ∧
        d1.running = true ∧
        d1.spawned = [⟨app2.BinaryPath, filepathDir app2.BinaryPath, some pid⟩] :=
  failed_release_makes_daemon theApp unstagedWorld .releaseDirMissing (by decide) rfl

end Gexe
